import Mathlib

/-
Verification of the visualizer-frontend data model and of the SQL
execution-flow simulator specified by its contract.

Embedding notes:
* Types mirror src/unnamed/part_000 (the API type declarations).
* The Zustand store, its actions and selectors mirror the second half of
  src/src/api/client.ts; the store state is a plain structure and each
  action is a function on it.  JS numbers holding the step index are
  modelled as Nat: the store only ever assigns 0 or steps by one, and all
  comparisons performed by the actions agree with the JS ones on
  non-negative values.
* The simulator core (clause parser, execution planner, stage simulator,
  result assembler) is not part of this repository (it lives behind the
  HTTP API); those definitions are modelled from the spec and carry a
  doc comment saying so.
-/

namespace SqlViz

/-- Cell values of rows.  The repository types use `unknown` for cell
values; we model them with a small closed value type sufficient for the
relational semantics in the spec. -/
inductive Value where
  | vNull : Value
  | vInt : Int → Value
  | vStr : String → Value
deriving DecidableEq, Repr

/-- A row is an ordered association of column name to value
(`Record<string, unknown>` in src/unnamed/part_000). -/
abbrev Row := List (String × Value)

/-- From src/unnamed/part_000 `ExecutionStepType`: closed enumeration of
the ten stage kinds.  `GROUP BY` and `ORDER BY` are written with an
underscore. -/
inductive ExecutionStepType where
  | FROM | JOIN | WHERE | GROUP_BY | HAVING
  | SELECT | DISTINCT | ORDER_BY | LIMIT | OFFSET
deriving DecidableEq, Repr

/-- From src/unnamed/part_000 `EXECUTION_ORDER`: the fixed logical order. -/
def EXECUTION_ORDER : List ExecutionStepType :=
  [.FROM, .JOIN, .WHERE, .GROUP_BY, .HAVING,
   .SELECT, .DISTINCT, .ORDER_BY, .LIMIT, .OFFSET]

/-- From src/unnamed/part_000 `STEP_DESCRIPTIONS`. -/
def STEP_DESCRIPTIONS : ExecutionStepType → String
  | .FROM => "Load data from table(s)"
  | .JOIN => "Combine rows from joined tables"
  | .WHERE => "Filter rows based on conditions"
  | .GROUP_BY => "Group rows by specified columns"
  | .HAVING => "Filter groups based on aggregate conditions"
  | .SELECT => "Choose which columns to include"
  | .DISTINCT => "Remove duplicate rows"
  | .ORDER_BY => "Sort the result set"
  | .LIMIT => "Restrict the number of rows"
  | .OFFSET => "Skip specified number of rows"

/-- From src/unnamed/part_000 `ApiErrorCode`. -/
inductive ApiErrorCode where
  | VALIDATION_ERROR | SQL_EXECUTION_ERROR | SQL_PARSE_ERROR
  | SESSION_NOT_FOUND | INVALID_SESSION | NOT_FOUND
  | INTERNAL_ERROR | NETWORK_ERROR | UNKNOWN_ERROR
deriving DecidableEq, Repr

/-- From src/unnamed/part_000 `ExecutionStep`. -/
structure ExecutionStep where
  order : Nat
  type : ExecutionStepType
  clause : String
  description : String
deriving DecidableEq, Repr

/-- From src/unnamed/part_000 `RowState`.  The optional `excludedReason`
is an `Option`. -/
structure RowState where
  data : Row
  included : Bool
  excludedReason : Option String
deriving DecidableEq, Repr

/-- The `stats` record nested in `DataFlowStep` (src/unnamed/part_000). -/
structure FlowStats where
  totalRows : Nat
  includedRows : Nat
  excludedRows : Nat
deriving DecidableEq, Repr

/-- From src/unnamed/part_000 `DataFlowStep`. -/
structure DataFlowStep where
  stepOrder : Nat
  stepType : ExecutionStepType
  rows : List RowState
  columns : List String
  description : String
  stats : FlowStats
deriving DecidableEq, Repr

/-- From src/unnamed/part_000 `TableData`. -/
structure TableData where
  tableName : String
  columns : List String
  rows : List Row
deriving DecidableEq, Repr

/-- From src/unnamed/part_000 `QueryVisualization`. -/
structure QueryVisualization where
  originalQuery : String
  executionSteps : List ExecutionStep
  dataFlow : List DataFlowStep
  finalResult : TableData
deriving DecidableEq, Repr

/-- From src/unnamed/part_000 `ColumnDefinition`; `references` collapses
the nested `{table, column}` object into a pair. -/
structure ColumnDefinition where
  name : String
  type : String
  isPrimaryKey : Bool
  isForeignKey : Bool
  isNotNull : Bool
  isUnique : Bool
  defaultValue : Option String
  references : Option (String × String)
deriving DecidableEq, Repr

/-- From src/unnamed/part_000 `TableSchema`. -/
structure TableSchema where
  name : String
  columns : List ColumnDefinition
deriving DecidableEq, Repr

/-- From src/unnamed/part_000 `RelationshipType`. -/
inductive RelationshipType where
  | oneToOne | oneToMany | manyToMany
deriving DecidableEq, Repr

/-- From src/unnamed/part_000 `ERRelationship`. -/
structure ERRelationship where
  fromTable : String
  fromColumn : String
  toTable : String
  toColumn : String
  type : RelationshipType
deriving DecidableEq, Repr

/-- From src/unnamed/part_000 `ERDiagram`. -/
structure ERDiagram where
  tables : List TableSchema
  relationships : List ERRelationship
deriving DecidableEq, Repr

/-- From src/src/api/client.ts `AppView`. -/
inductive AppView where
  | setup | schema | query | visualization
deriving DecidableEq, Repr

/-- From src/src/api/client.ts `AppState` (the Zustand store state,
data fields only; the actions are modelled as functions below). -/
structure AppState where
  sessionId : Option String
  isSessionLoading : Bool
  sessionError : Option String
  currentView : AppView
  setupSQL : String
  querySQL : String
  tables : List TableSchema
  tableData : List TableData
  erDiagram : Option ERDiagram
  visualization : Option QueryVisualization
  currentStepIndex : Nat
  isExecuting : Bool
  executionError : Option String
  executionMessage : Option String
deriving Repr

/-- From src/src/api/client.ts, store action `nextStep`: steps forward
only when a visualization is loaded and the index is not already on the
last data-flow step. -/
def nextStep (s : AppState) : AppState :=
  match s.visualization with
  | some vis =>
      if s.currentStepIndex < vis.dataFlow.length - 1 then
        { s with currentStepIndex := s.currentStepIndex + 1 }
      else s
  | none => s

/-- From src/src/api/client.ts, store action `prevStep`. -/
def prevStep (s : AppState) : AppState :=
  if s.currentStepIndex > 0 then
    { s with currentStepIndex := s.currentStepIndex - 1 }
  else s

/-- From src/src/api/client.ts, store action `setVisualization`: stores
the visualization, resets the step index to 0, and switches the view to
`visualization` when the argument is non-null. -/
def setVisualization (v : Option QueryVisualization) (s : AppState) : AppState :=
  { s with
    visualization := v
    currentStepIndex := 0
    currentView := match v with | some _ => .visualization | none => s.currentView }

/-- From src/src/api/client.ts, store action `setCurrentStepIndex`. -/
def setCurrentStepIndex (i : Nat) (s : AppState) : AppState :=
  { s with currentStepIndex := i }

/-- From src/src/api/client.ts, store action `reset`: Zustand `set`
merges the given partial state into the current one, so exactly the
listed fields change. -/
def reset (s : AppState) : AppState :=
  { s with
    tables := []
    tableData := []
    erDiagram := none
    visualization := none
    currentStepIndex := 0
    executionError := none
    executionMessage := none
    currentView := .setup }

/-- From src/src/api/client.ts selector `selectCurrentDataFlow`. -/
def selectCurrentDataFlow (s : AppState) : Option DataFlowStep :=
  match s.visualization with
  | none => none
  | some vis => vis.dataFlow[s.currentStepIndex]?

/-- From src/src/api/client.ts selector `selectCurrentExecutionStep`:
looks up the execution step whose `order` equals the current data-flow
step `stepOrder`. -/
def selectCurrentExecutionStep (s : AppState) : Option ExecutionStep :=
  match s.visualization with
  | none => none
  | some vis =>
      match vis.dataFlow[s.currentStepIndex]? with
      | none => none
      | some df => vis.executionSteps.find? (fun step => step.order == df.stepOrder)

/-- Store actions exercised by the stepping claim: the three actions of
the store that move or reset `currentStepIndex` together with a loaded
visualization. -/
inductive StepAction where
  | next : StepAction
  | prev : StepAction
  | setVis : Option QueryVisualization → StepAction

/-- Apply one store action. -/
def applyAction (a : StepAction) (s : AppState) : AppState :=
  match a with
  | .next => nextStep s
  | .prev => prevStep s
  | .setVis v => setVisualization v s

/-- Apply a sequence of store actions, first action first. -/
def applyActions (acts : List StepAction) (s : AppState) : AppState :=
  match acts with
  | [] => s
  | a :: rest => applyActions rest (applyAction a s)

/-- The store invariant of the stepping claim: whenever a visualization
is loaded, the current step index is inside its data flow. -/
def StoreInv (s : AppState) : Prop :=
  ∀ vis, s.visualization = some vis → s.currentStepIndex < vis.dataFlow.length

/-- An action is in the scope of the stepping claim when any
visualization it loads has at least one data-flow step. -/
def GoodAction (a : StepAction) : Prop :=
  match a with
  | .setVis (some vis) => vis.dataFlow ≠ []
  | _ => True

/-- Environment of `initSession` (src/src/api/client.ts): the value
currently in localStorage under the `sql-viz-session-id` key, whether
`api.getSession` succeeds on a given id, and the id that
`api.createSession` returns. -/
structure SessionEnv where
  stored : Option String
  validSession : String → Bool
  freshId : String

/-- Result of `initSession`: the returned id, the final localStorage
content under the key, and whether a new session was created. -/
structure InitResult where
  returnedId : String
  stored : Option String
  createdNew : Bool
deriving Repr

/-- From src/src/api/client.ts `initSession`: reuse the stored id when
`getSession` succeeds on it; otherwise remove the stale id, create a
fresh session, store its id and return it. -/
def initSession (env : SessionEnv) : InitResult :=
  match env.stored with
  | some existingSessionId =>
      if env.validSession existingSessionId then
        { returnedId := existingSessionId
          stored := some existingSessionId
          createdNew := false }
      else
        { returnedId := env.freshId, stored := some env.freshId, createdNew := true }
  | none =>
      { returnedId := env.freshId, stored := some env.freshId, createdNew := true }

/-- Modelled from the spec: the external SQL engine capability consumed
by the simulator (spec section 6) — full-table scan and per-row predicate
evaluation.  `scanTable` returns `none` when the table does not exist;
`evalPred` returns `none` when the predicate cannot be evaluated against
the row (unresolvable column, runtime failure). -/
structure Engine where
  scanTable : String → Option TableData
  evalPred : String → Row → Option Bool

/-- Value of a column in a row; missing columns read as SQL NULL. -/
def getCol (row : Row) (c : String) : Value :=
  match row.find? (fun p => p.1 == c) with
  | some p => p.2
  | none => .vNull

/-- Project a row onto a column list, in column-list order. -/
def project (cols : List String) (row : Row) : Row :=
  cols.map (fun c => (c, getCol row c))

/-- Grouping key of a row for a list of group-by columns. -/
def keyOf (cols : List String) (row : Row) : List Value :=
  cols.map (getCol row)

/-- Total comparison on values used by ORDER BY (NULL first, then
integers, then strings). -/
def Value.leB : Value → Value → Bool
  | .vNull, _ => true
  | _, .vNull => false
  | .vInt a, .vInt b => decide (a ≤ b)
  | .vInt _, .vStr _ => true
  | .vStr _, .vInt _ => false
  | .vStr a, .vStr b => decide (a ≤ b)

/-- Lexicographic row comparison over sort keys; the Bool per key is
true for ascending. -/
def rowLeB (keys : List (String × Bool)) (a b : Row) : Bool :=
  match keys with
  | [] => true
  | (c, asc) :: rest =>
      let va := getCol a c
      let vb := getCol b c
      if va = vb then rowLeB rest a b
      else if asc then Value.leB va vb else Value.leB vb va

/-- Sort order on row states induced by the sort keys. -/
def rowLe (keys : List (String × Bool)) (a b : RowState) : Prop :=
  rowLeB keys a.data b.data = true

instance (keys : List (String × Bool)) : DecidableRel (rowLe keys) := fun a b =>
  decEq (rowLeB keys a.data b.data) true

/-- Keep the first occurrence of each key, dropping later rows with an
already-seen key (used by GROUP BY and DISTINCT). -/
def dedupBy {α β : Type} [DecidableEq β] (key : α → β) : List α → List α
  | [] => []
  | x :: xs => x :: dedupBy key (xs.filter (fun y => decide (key y ≠ key x)))
termination_by l => l.length
decreasing_by
  simp only [List.length_cons]
  exact Nat.lt_succ_of_le (List.length_filter_le _ _)

/-- Modelled from the spec: exclusion reason emitted by LIMIT/OFFSET
windowing (spec section 4.3). -/
def exclLimitReason : String := "Excluded by LIMIT/OFFSET"

/-- Modelled from the spec: exclusion reason emitted by WHERE/HAVING,
rendered from the original predicate text (spec section 4.3). -/
def noMatchReason (p : String) : String := "Does not match: " ++ p

/-- Modelled from the spec: WHERE/HAVING marking pass.  Rows still
included are evaluated through the engine; failing rows are marked
excluded with the rendered reason; rows already excluded pass through
untouched.  An unevaluable predicate aborts the whole simulation. -/
def markRows (eng : Engine) (p : String) : List RowState → Except ApiErrorCode (List RowState)
  | [] => .ok []
  | r :: rest =>
      if r.included then
        match eng.evalPred p r.data with
        | none => .error .SQL_EXECUTION_ERROR
        | some true =>
            match markRows eng p rest with
            | .error e => .error e
            | .ok tail => .ok (r :: tail)
        | some false =>
            match markRows eng p rest with
            | .error e => .error e
            | .ok tail =>
                .ok ({ r with included := false, excludedReason := some (noMatchReason p) } :: tail)
      else
        match markRows eng p rest with
        | .error e => .error e
        | .ok tail => .ok (r :: tail)

/-- Modelled from the spec: keep the candidate rows on which the ON
predicate evaluates to true; an unevaluable predicate aborts. -/
def filterPred (eng : Engine) (p : String) : List Row → Except ApiErrorCode (List Row)
  | [] => .ok []
  | r :: rest =>
      match eng.evalPred p r with
      | none => .error .SQL_EXECUTION_ERROR
      | some b =>
          match filterPred eng p rest with
          | .error e => .error e
          | .ok tail => .ok (if b then r :: tail else tail)

/-- Modelled from the spec: LIMIT pass.  Walks the working set keeping
the first `cap` included rows and marking later included rows excluded;
rows already excluded are not counted toward the window (`cap` is
offset + limit, so that the subsequent OFFSET stage leaves exactly the
LIMIT window). -/
def applyLimit (cap : Nat) : Nat → List RowState → List RowState
  | _, [] => []
  | k, r :: rest =>
      if r.included then
        if k < cap then r :: applyLimit cap (k + 1) rest
        else
          { r with included := false, excludedReason := some exclLimitReason }
            :: applyLimit cap (k + 1) rest
      else r :: applyLimit cap k rest

/-- Modelled from the spec: OFFSET pass, marking the first `off`
included rows excluded; rows already excluded are not counted. -/
def applyOffset (off : Nat) : Nat → List RowState → List RowState
  | _, [] => []
  | k, r :: rest =>
      if r.included then
        if k < off then
          { r with included := false, excludedReason := some exclLimitReason }
            :: applyOffset off (k + 1) rest
        else r :: applyOffset off (k + 1) rest
      else r :: applyOffset off k rest

/-- Modelled from the spec: the tagged union of stage-specific operands
(design note in spec section 9).  `limitT` carries the window cap
(offset + limit).  `joinT` models an inner join. -/
inductive StageOp where
  | fromT : String → StageOp
  | joinT : String → String → StageOp
  | whereT : String → StageOp
  | groupByT : List String → StageOp
  | havingT : String → StageOp
  | selectT : Option (List String) → StageOp
  | distinctT : StageOp
  | orderByT : List (String × Bool) → StageOp
  | limitT : Nat → StageOp
  | offsetT : Nat → StageOp
deriving DecidableEq, Repr

/-- The `ExecutionStepType` of a stage operand. -/
def stageType : StageOp → ExecutionStepType
  | .fromT _ => .FROM
  | .joinT _ _ => .JOIN
  | .whereT _ => .WHERE
  | .groupByT _ => .GROUP_BY
  | .havingT _ => .HAVING
  | .selectT _ => .SELECT
  | .distinctT => .DISTINCT
  | .orderByT _ => .ORDER_BY
  | .limitT _ => .LIMIT
  | .offsetT _ => .OFFSET

/-- Modelled from the spec: one stage transition of the Stage Simulator
(spec section 4.3).  Consumes the working row set and column list,
produces the next ones or aborts with `SQL_EXECUTION_ERROR`. -/
def applyStage (eng : Engine) (op : StageOp) (rows : List RowState) (cols : List String) :
    Except ApiErrorCode (List RowState × List String) :=
  match op with
  | .fromT table =>
      match eng.scanTable table with
      | none => .error .SQL_EXECUTION_ERROR
      | some td =>
          .ok (td.rows.map (fun r => ⟨project td.columns r, true, none⟩), td.columns)
  | .joinT rightTable onPred =>
      match eng.scanTable rightTable with
      | none => .error .SQL_EXECUTION_ERROR
      | some td =>
          let cols2 := cols ++ td.columns
          match filterPred eng onPred
              (rows.flatMap (fun l => td.rows.map (fun rr => project cols2 (l.data ++ rr)))) with
          | .error e => .error e
          | .ok matched => .ok (matched.map (fun d => ⟨d, true, none⟩), cols2)
  | .whereT p =>
      match markRows eng p rows with
      | .error e => .error e
      | .ok out => .ok (out, cols)
  | .groupByT gcols =>
      .ok (dedupBy (fun r => keyOf gcols r.data)
             ((rows.filter (fun r => r.included)).map (fun r => ⟨r.data, true, none⟩)), cols)
  | .havingT p =>
      match markRows eng p rows with
      | .error e => .error e
      | .ok out => .ok (out, cols)
  | .selectT selCols =>
      let cols2 := match selCols with | none => cols | some cs => cs
      .ok (rows.map (fun r => { r with data := project cols2 r.data }), cols2)
  | .distinctT =>
      .ok (dedupBy (fun r => r.data) (rows.filter (fun r => r.included)), cols)
  | .orderByT keys =>
      .ok (List.insertionSort (rowLe keys) (rows.filter (fun r => r.included))
             ++ rows.filter (fun r => !r.included), cols)
  | .limitT cap => .ok (applyLimit cap 0 rows, cols)
  | .offsetT off => .ok (applyOffset off 0 rows, cols)

/-- Modelled from the spec: one planned stage (spec section 4.2) with
its dense 1-based order, operand and verbatim clause text. -/
structure PlannedStage where
  order : Nat
  op : StageOp
  clauseText : String
deriving Repr

/-- One JOIN clause of a structured query. -/
structure JoinSpec where
  clauseText : String
  rightTable : String
  onPred : String
deriving DecidableEq, Repr

/-- Modelled from the spec: the structured query descriptor produced by
the Clause Parser (spec section 4.1).  Absent clauses are `none`. -/
structure StructuredQuery where
  distinct : Bool
  selectCols : Option (List String)
  selectClause : String
  fromTable : String
  fromClause : String
  joins : List JoinSpec
  whereClause : Option String
  groupByCols : Option (List String)
  havingClause : Option String
  orderByKeys : Option (List (String × Bool))
  limitCount : Option Nat
  offsetCount : Option Nat
deriving DecidableEq, Repr

def spaceStr : String := " "

def whereClauseText (p : String) : String := "WHERE " ++ p

def groupByClauseText (cs : List String) : String :=
  "GROUP BY " ++ String.intercalate spaceStr cs

def havingClauseText (p : String) : String := "HAVING " ++ p

def distinctClauseText : String := "DISTINCT"

def orderByClauseText (ks : List (String × Bool)) : String :=
  "ORDER BY " ++ String.intercalate spaceStr (ks.map (fun k => k.1))

def limitClauseText (n : Nat) : String := "LIMIT " ++ toString n

def offsetClauseText (n : Nat) : String := "OFFSET " ++ toString n

/-- The singleton stage for a present optional clause, nothing for an
absent one. -/
def optStage {α : Type} (o : Option α) (f : α → StageOp × String) : List (StageOp × String) :=
  match o with
  | none => []
  | some a => [f a]

/-- Modelled from the spec: the Execution Planner mapping (spec section
4.2).  Stages are emitted in the fixed logical order; FROM and SELECT
are always present; JOIN repeats once per join in textual order. -/
def stageOps (q : StructuredQuery) : List (StageOp × String) :=
  [(.fromT q.fromTable, q.fromClause)]
    ++ q.joins.map (fun j => (StageOp.joinT j.rightTable j.onPred, j.clauseText))
    ++ optStage q.whereClause (fun p => (.whereT p, whereClauseText p))
    ++ optStage q.groupByCols (fun cs => (.groupByT cs, groupByClauseText cs))
    ++ optStage q.havingClause (fun p => (.havingT p, havingClauseText p))
    ++ [(.selectT q.selectCols, q.selectClause)]
    ++ (if q.distinct then [(StageOp.distinctT, distinctClauseText)] else [])
    ++ optStage q.orderByKeys (fun ks => (.orderByT ks, orderByClauseText ks))
    ++ optStage q.limitCount (fun n => (.limitT (q.offsetCount.getD 0 + n), limitClauseText n))
    ++ optStage q.offsetCount (fun n => (.offsetT n, offsetClauseText n))

/-- Assign dense 1-based orders (spec section 4.2, starting at `n`). -/
def number (n : Nat) : List (StageOp × String) → List PlannedStage
  | [] => []
  | p :: rest => ⟨n, p.1, p.2⟩ :: number (n + 1) rest

/-- Modelled from the spec: the Execution Planner contract
`plan(structuredQuery) -> ordered sequence of PlannedStage`. -/
def plan (q : StructuredQuery) : List PlannedStage :=
  number 1 (stageOps q)

/-- Stats recomputed from the current physical row list (spec section
4.3: `totalRows = rows.length`, `includedRows = count(included)`,
`excludedRows = totalRows - includedRows`). -/
def mkStats (rows : List RowState) : FlowStats :=
  { totalRows := rows.length
    includedRows := (rows.filter (fun r => r.included)).length
    excludedRows := rows.length - (rows.filter (fun r => r.included)).length }

/-- The data-flow snapshot emitted after a stage ran. -/
def mkFlowStep (s : PlannedStage) (rows : List RowState) (cols : List String) : DataFlowStep :=
  { stepOrder := s.order
    stepType := stageType s.op
    rows := rows
    columns := cols
    description := STEP_DESCRIPTIONS (stageType s.op)
    stats := mkStats rows }

/-- Modelled from the spec: the Stage Simulator (spec section 4.3),
threading the working row set through the planned stages and emitting
one `DataFlowStep` per stage; any stage failure aborts the whole
simulation. -/
def simulate (eng : Engine) :
    List PlannedStage → List RowState → List String → Except ApiErrorCode (List DataFlowStep)
  | [], _, _ => .ok []
  | s :: rest, rows, cols =>
      match applyStage eng s.op rows cols with
      | .error e => .error e
      | .ok (rows2, cols2) =>
          match simulate eng rest rows2 cols2 with
          | .error e => .error e
          | .ok tail => .ok (mkFlowStep s rows2 cols2 :: tail)

/-- The `ExecutionStep` assembled from a planned stage (spec section
4.4). -/
def mkExecutionStep (s : PlannedStage) : ExecutionStep :=
  { order := s.order
    type := stageType s.op
    clause := s.clauseText
    description := STEP_DESCRIPTIONS (stageType s.op) }

def queryResultName : String := "Query Result"

/-- Modelled from the spec: the Result Assembler final-result rule (spec
section 4.4) — the last data-flow step included rows, using that stage
columns. -/
def finalFrom (flow : List DataFlowStep) : TableData :=
  match flow.getLast? with
  | none => { tableName := queryResultName, columns := [], rows := [] }
  | some st =>
      { tableName := queryResultName
        columns := st.columns
        rows := (st.rows.filter (fun r => r.included)).map (fun r => r.data) }

/-- Modelled from the spec: plan, simulate and assemble one structured
query against an engine snapshot. -/
def visualizeStructured (eng : Engine) (qtext : String) (q : StructuredQuery) :
    Except ApiErrorCode QueryVisualization :=
  match simulate eng (plan q) [] [] with
  | .error e => .error e
  | .ok flow =>
      .ok { originalQuery := qtext
            executionSteps := (plan q).map mkExecutionStep
            dataFlow := flow
            finalResult := finalFrom flow }

def kwSELECT : String := "SELECT"
def kwFROM : String := "FROM"
def kwJOIN : String := "JOIN"
def kwWHERE : String := "WHERE"
def kwGROUP : String := "GROUP"
def kwHAVING : String := "HAVING"
def kwORDER : String := "ORDER"
def kwLIMIT : String := "LIMIT"
def kwOFFSET : String := "OFFSET"
def kwBY : String := "BY"
def kwON : String := "ON"
def kwASC : String := "ASC"
def kwDESC : String := "DESC"
def kwDISTINCT : String := "DISTINCT"
def starTok : String := "*"

/-- True on whitespace and on the separators the tokenizer drops
(semicolons, commas). -/
def isSepChar (c : Char) : Bool := c.isWhitespace || c = ';' || c = ','

/-- Split a character list at separator characters (structural
recursion, so that the tokenizer evaluates inside the kernel). -/
def splitCharsAux : List Char → List Char → List (List Char)
  | [], acc => if acc = [] then [] else [acc.reverse]
  | c :: cs, acc =>
      if isSepChar c then
        if acc = [] then splitCharsAux cs []
        else acc.reverse :: splitCharsAux cs []
      else splitCharsAux cs (c :: acc)

/-- Character-wise uppercase. -/
def toUpperStr (s : String) : String := ⟨s.data.map Char.toUpper⟩

/-- A string of only whitespace (or empty). -/
def isBlank (s : String) : Bool := s.data.all Char.isWhitespace

/-- Character-wise decimal parse of a token. -/
def natOfCharsAux : List Char → Nat → Option Nat
  | [], acc => some acc
  | c :: cs, acc =>
      if c.isDigit then natOfCharsAux cs (acc * 10 + (c.toNat - 48))
      else none

/-- Decimal value of a non-empty digit token, else `none`. -/
def toNatStr (s : String) : Option Nat :=
  if s.data = [] then none else natOfCharsAux s.data 0

/-- Modelled from the spec: tokenization of the Clause Parser (spec
section 4.1) — tolerant of mixed case, arbitrary whitespace/newlines,
trailing semicolons; commas separate tokens.  Clause text is
reconstructed from tokens (verbatim source spans are abstracted to
token sequences). -/
def tokenize (s : String) : List String :=
  (splitCharsAux s.data []).map (fun cs => String.mk cs)

/-- The clause-introducing keywords at which the token stream is cut. -/
def clauseKws : List String :=
  [kwFROM, kwJOIN, kwWHERE, kwGROUP, kwHAVING, kwORDER, kwLIMIT, kwOFFSET]

/-- Cut the token stream into (keyword, body) segments. -/
def segmentAux (cur : String) (acc : List String) : List String → List (String × List String)
  | [] => [(cur, acc.reverse)]
  | t :: rest =>
      if clauseKws.contains (toUpperStr t) then
        (cur, acc.reverse) :: segmentAux t.toUpper [] rest
      else segmentAux cur (t :: acc) rest

/-- Body of the first segment introduced by `kw`, if present. -/
def findSeg (kw : String) (segs : List (String × List String)) : Option (List String) :=
  (segs.find? (fun s => s.1 == kw)).map (fun s => s.2)

/-- Tokens before and after the first occurrence of keyword `kw`. -/
def breakAtKw (kw : String) : List String → List String × Option (List String)
  | [] => ([], none)
  | t :: rest =>
      if toUpperStr t = kw then ([], some rest)
      else
        let r := breakAtKw kw rest
        (t :: r.1, r.2)

/-- Modelled from the spec: one JOIN clause — joined table followed by
the ON predicate. -/
def parseJoin (body : List String) : Option JoinSpec :=
  match body with
  | [] => none
  | table :: rest =>
      match (breakAtKw kwON rest).2 with
      | none => none
      | some predToks =>
          if predToks = [] then none
          else
            some { clauseText := "JOIN " ++ String.intercalate spaceStr body
                   rightTable := table
                   onPred := String.intercalate spaceStr predToks }

def parseJoins : List (List String) → Option (List JoinSpec)
  | [] => some []
  | b :: rest =>
      match parseJoin b, parseJoins rest with
      | some j, some js => some (j :: js)
      | _, _ => none

/-- Sort keys of an ORDER BY body: column optionally followed by
ASC/DESC (true means ascending). -/
def orderKeys : List String → List (String × Bool)
  | [] => []
  | [c] => [(c, true)]
  | c :: d :: rest2 =>
      if toUpperStr d = kwDESC then (c, false) :: orderKeys rest2
      else if toUpperStr d = kwASC then (c, true) :: orderKeys rest2
      else (c, true) :: orderKeys (d :: rest2)


/-- Modelled from the spec: the Clause Parser (spec section 4.1).
Accepts a single SELECT statement (case-insensitive keyword after
trimming), splits it into clauses, and returns `none` on anything it
cannot recognize; absent clauses are simply omitted. -/
def parseQuery (query : String) : Option StructuredQuery :=
  match tokenize query with
  | [] => none
  | t0 :: rest =>
      if toUpperStr t0 ≠ kwSELECT then none
      else
        let segs := segmentAux kwSELECT [] rest
        match findSeg kwSELECT segs, findSeg kwFROM segs with
        | some selBody, some fromBody =>
            match fromBody with
            | [] => none
            | table :: _ =>
                let distinct := selBody.head?.map (fun t => toUpperStr t) = some kwDISTINCT
                let selCore := if distinct then selBody.drop 1 else selBody
                if selCore = [] then none
                else
                  let joinBodies := (segs.filter (fun s => s.1 == kwJOIN)).map (fun s => s.2)
                  match parseJoins joinBodies with
                  | none => none
                  | some js =>
                      let whereC := (findSeg kwWHERE segs).map (String.intercalate spaceStr)
                      let havingC := (findSeg kwHAVING segs).map (String.intercalate spaceStr)
                      let groupC := findSeg kwGROUP segs
                      let orderC := findSeg kwORDER segs
                      let limitC := findSeg kwLIMIT segs
                      let offsetC := findSeg kwOFFSET segs
                      let groupCols : Option (Option (List String)) :=
                        match groupC with
                        | none => some none
                        | some (b :: cs) =>
                            if toUpperStr b = kwBY ∧ cs ≠ [] then some (some cs) else none
                        | some [] => none
                      let orderKs : Option (Option (List (String × Bool))) :=
                        match orderC with
                        | none => some none
                        | some (b :: cs) =>
                            if toUpperStr b = kwBY ∧ cs ≠ [] then some (some (orderKeys cs))
                            else none
                        | some [] => none
                      let limitN : Option (Option Nat) :=
                        match limitC with
                        | none => some none
                        | some [t] => (toNatStr t).map some
                        | some _ => none
                      let offsetN : Option (Option Nat) :=
                        match offsetC with
                        | none => some none
                        | some [t] => (toNatStr t).map some
                        | some _ => none
                      match groupCols, orderKs, limitN, offsetN with
                      | some gc, some okeys, some ln, some offn =>
                          if (whereC = some "") ∨ (havingC = some "") then none
                          else
                            some { distinct := distinct
                                   selectCols := if selCore = [starTok] then none else some selCore
                                   selectClause := "SELECT " ++ String.intercalate spaceStr selBody
                                   fromTable := table
                                   fromClause := "FROM " ++ String.intercalate spaceStr fromBody
                                   joins := js
                                   whereClause := whereC
                                   groupByCols := gc
                                   havingClause := havingC
                                   orderByKeys := okeys
                                   limitCount := ln
                                   offsetCount := offn }
                      | _, _, _, _ => none
        | _, _ => none

/-- Modelled from the spec: the exposed capability
`visualize(sessionId, query)` (spec section 6) — request validation,
parse, plan, simulate, assemble.  Validation failures are tagged
`VALIDATION_ERROR`, parse failures `SQL_PARSE_ERROR`, and simulation
failures `SQL_EXECUTION_ERROR`. -/
def visualize (eng : Engine) (sessionId query : String) :
    Except ApiErrorCode QueryVisualization :=
  if isBlank sessionId || isBlank query then .error .VALIDATION_ERROR
  else
    match parseQuery query with
    | none => .error .SQL_PARSE_ERROR
    | some q => visualizeStructured eng query q

/-! Concrete sample data, following Example 1 of the spec testable
properties: table `users(id, name, age)` with rows Alice(30), Bob(20),
Charlie(25), and the query
`SELECT * FROM users WHERE age > 21 ORDER BY name`. -/

def usersName : String := "users"
def idCol : String := "id"
def nameCol : String := "name"
def ageCol : String := "age"
def agePred : String := "age > 21"
def sampleText : String := "SELECT * FROM users WHERE age > 21 ORDER BY name"

def usersTable : TableData :=
  { tableName := usersName
    columns := [idCol, nameCol, ageCol]
    rows :=
      [[(idCol, .vInt 1), (nameCol, .vStr "Alice"), (ageCol, .vInt 30)],
       [(idCol, .vInt 2), (nameCol, .vStr "Bob"), (ageCol, .vInt 20)],
       [(idCol, .vInt 3), (nameCol, .vStr "Charlie"), (ageCol, .vInt 25)]] }

/-- A concrete engine snapshot: one table, one evaluable predicate. -/
def sampleEngine : Engine :=
  { scanTable := fun t => if t = usersName then some usersTable else none
    evalPred := fun p row =>
      if p = agePred then
        match getCol row ageCol with
        | .vInt a => some (decide (21 < a))
        | _ => some false
      else none }

def sampleQuery : StructuredQuery :=
  { distinct := false
    selectCols := none
    selectClause := "SELECT *"
    fromTable := usersName
    fromClause := "FROM users"
    joins := []
    whereClause := some agePred
    groupByCols := none
    havingClause := none
    orderByKeys := some [(nameCol, true)]
    limitCount := none
    offsetCount := none }

def emptyTD : TableData := { tableName := queryResultName, columns := [], rows := [] }

def defaultVis : QueryVisualization :=
  { originalQuery := "", executionSteps := [], dataFlow := [], finalResult := emptyTD }

/-- The sample visualization computed by the modelled pipeline. -/
def sampleVis : QueryVisualization :=
  match visualizeStructured sampleEngine sampleText sampleQuery with
  | .ok v => v
  | .error _ => defaultVis

/-! Helper lemmas about the simulator building blocks. -/

/-- Row lists in which the exclusion reason is present exactly on the
excluded rows. -/
def WfRows (l : List RowState) : Prop :=
  ∀ r ∈ l, (r.excludedReason ≠ none ↔ r.included = false)

/-- Row lists whose data is keyed exactly by the given column list. -/
def KeysOf (cols : List String) (l : List RowState) : Prop :=
  ∀ r ∈ l, r.data.map Prod.fst = cols

theorem project_keys (cols : List String) (row : Row) :
    (project cols row).map Prod.fst = cols := by
  induction cols with
  | nil => rfl
  | cons c cs ih => simpa [project] using ih

theorem dedupBy_subset {α β : Type} [DecidableEq β] (key : α → β) :
    ∀ (l : List α), ∀ x ∈ dedupBy key l, x ∈ l := by
  intro l
  induction l using dedupBy.induct key with
  | case1 => simp [dedupBy]
  | case2 x xs ih =>
      intro y hy
      rw [dedupBy] at hy
      rcases List.mem_cons.mp hy with h | h
      · exact h ▸ List.mem_cons_self _ _
      · exact List.mem_cons_of_mem _ (List.mem_filter.mp (ih y h)).1

theorem filterPred_subset (eng : Engine) (p : String) :
    ∀ (l out : List Row), filterPred eng p l = .ok out → ∀ r ∈ out, r ∈ l := by
  intro l
  induction l with
  | nil => intro out h; rw [filterPred] at h; cases h; simp
  | cons x xs ih =>
      intro out h r hr
      rw [filterPred] at h
      cases hev : eng.evalPred p x with
      | none => rw [hev] at h; cases h
      | some b =>
          rw [hev] at h
          cases htl : filterPred eng p xs with
          | error e => rw [htl] at h; cases h
          | ok tail =>
              rw [htl] at h
              cases h
              cases b with
              | true =>
                  rcases List.mem_cons.mp hr with h1 | h1
                  · exact h1 ▸ List.mem_cons_self _ _
                  · exact List.mem_cons_of_mem _ (ih tail htl r h1)
              | false => exact List.mem_cons_of_mem _ (ih tail htl r hr)

/-- The marked variant of a row produced by WHERE/HAVING/LIMIT/OFFSET. -/
def markedWith (reason : String) (r : RowState) : RowState :=
  { r with included := false, excludedReason := some reason }

/-- A marking pass leaves every row either untouched or, if it was
included, marked excluded with the given reason. -/
def MarksWith (reason : String) (a b : List RowState) : Prop :=
  b.length = a.length ∧
  ∀ i (hi : i < a.length) (hb : i < b.length),
    b.get ⟨i, hb⟩ = a.get ⟨i, hi⟩ ∨
    ((a.get ⟨i, hi⟩).included = true ∧ b.get ⟨i, hb⟩ = markedWith reason (a.get ⟨i, hi⟩))

theorem marksWith_cons {reason : String} {r r2 : RowState} {rest tail : List RowState}
    (hr : r2 = r ∨ (r.included = true ∧ r2 = markedWith reason r))
    (h : MarksWith reason rest tail) : MarksWith reason (r :: rest) (r2 :: tail) := by
  obtain ⟨hlen, hidx⟩ := h
  refine ⟨by simpa using hlen, ?_⟩
  intro i hi hb
  match i with
  | 0 => simpa using hr
  | n + 1 =>
      have hi2 : n < rest.length := by simpa using hi
      have hb2 : n < tail.length := by simpa using hb
      simpa using hidx n hi2 hb2

theorem markRows_ok {eng : Engine} {p : String} :
    ∀ {rows out : List RowState}, markRows eng p rows = .ok out →
      MarksWith (noMatchReason p) rows out := by
  intro rows
  induction rows with
  | nil =>
      intro out h
      rw [markRows] at h
      cases h
      exact ⟨rfl, fun i hi => by cases hi⟩
  | cons r rest ih =>
      intro out h
      rw [markRows] at h
      cases hinc : r.included with
      | false =>
          rw [hinc] at h
          simp only [Bool.false_eq_true, if_false] at h
          cases htl : markRows eng p rest with
          | error e => rw [htl] at h; cases h
          | ok tail =>
              rw [htl] at h
              cases h
              exact marksWith_cons (Or.inl rfl) (ih htl)
      | true =>
          rw [hinc] at h
          simp only [if_true] at h
          cases hev : eng.evalPred p r.data with
          | none => rw [hev] at h; cases h
          | some b =>
              rw [hev] at h
              cases b with
              | true =>
                  cases htl : markRows eng p rest with
                  | error e => rw [htl] at h; cases h
                  | ok tail =>
                      rw [htl] at h
                      cases h
                      exact marksWith_cons (Or.inl rfl) (ih htl)
              | false =>
                  cases htl : markRows eng p rest with
                  | error e => rw [htl] at h; cases h
                  | ok tail =>
                      rw [htl] at h
                      cases h
                      exact marksWith_cons (Or.inr ⟨hinc, rfl⟩) (ih htl)

theorem applyLimit_ok (cap : Nat) :
    ∀ (k : Nat) (rows : List RowState),
      MarksWith exclLimitReason rows (applyLimit cap k rows) := by
  intro k rows
  induction rows generalizing k with
  | nil => exact ⟨rfl, fun i hi => by cases hi⟩
  | cons r rest ih =>
      rw [applyLimit]
      cases hinc : r.included with
      | false =>
          simp only [Bool.false_eq_true, if_false]
          exact marksWith_cons (Or.inl rfl) (ih k)
      | true =>
          simp only [if_true]
          by_cases hk : k < cap
          · simp only [hk, if_true]
            exact marksWith_cons (Or.inl rfl) (ih (k + 1))
          · simp only [hk, if_false]
            exact marksWith_cons (Or.inr ⟨hinc, rfl⟩) (ih (k + 1))

theorem applyOffset_ok (off : Nat) :
    ∀ (k : Nat) (rows : List RowState),
      MarksWith exclLimitReason rows (applyOffset off k rows) := by
  intro k rows
  induction rows generalizing k with
  | nil => exact ⟨rfl, fun i hi => by cases hi⟩
  | cons r rest ih =>
      rw [applyOffset]
      cases hinc : r.included with
      | false =>
          simp only [Bool.false_eq_true, if_false]
          exact marksWith_cons (Or.inl rfl) (ih k)
      | true =>
          simp only [if_true]
          by_cases hk : k < off
          · simp only [hk, if_true]
            exact marksWith_cons (Or.inr ⟨hinc, rfl⟩) (ih (k + 1))
          · simp only [hk, if_false]
            exact marksWith_cons (Or.inl rfl) (ih (k + 1))

theorem MarksWith.wf {reason : String} {a b : List RowState}
    (h : MarksWith reason a b) (hw : WfRows a) : WfRows b := by
  intro r hr
  obtain ⟨⟨i, hb⟩, rfl⟩ := List.mem_iff_get.mp hr
  rcases h.2 i (h.1 ▸ hb) hb with heq | ⟨hinc, heq⟩
  · exact heq ▸ hw _ (List.get_mem _ _ _)
  · rw [heq]
    simp [markedWith]

theorem MarksWith.keys {reason : String} {cols : List String} {a b : List RowState}
    (h : MarksWith reason a b) (hk : KeysOf cols a) : KeysOf cols b := by
  intro r hr
  obtain ⟨⟨i, hb⟩, rfl⟩ := List.mem_iff_get.mp hr
  rcases h.2 i (h.1 ▸ hb) hb with heq | ⟨hinc, heq⟩
  · exact heq ▸ hk _ (List.get_mem _ _ _)
  · rw [heq]
    show (a.get ⟨i, h.1 ▸ hb⟩).data.map Prod.fst = cols
    exact hk _ (List.get_mem _ _ _)

theorem MarksWith.excluded_fixed {reason : String} {a b : List RowState}
    (h : MarksWith reason a b) (i : Nat) (hi : i < a.length) (hb : i < b.length)
    (hexc : (a.get ⟨i, hi⟩).included = false) : b.get ⟨i, hb⟩ = a.get ⟨i, hi⟩ := by
  rcases h.2 i hi hb with heq | ⟨hinc, heq⟩
  · exact heq
  · rw [hinc] at hexc; cases hexc

/-- All-fresh row lists (produced by FROM/JOIN/GROUP BY) are
well-formed. -/
theorem wf_fresh (l : List Row) : WfRows (l.map (fun d => ⟨d, true, none⟩)) := by
  intro r hr
  obtain ⟨d, _, rfl⟩ := List.mem_map.mp hr
  simp

theorem wf_filter_included {rows : List RowState} (hw : WfRows rows) :
    WfRows (rows.filter (fun r => r.included)) :=
  fun r hr => hw r (List.mem_filter.mp hr).1

/-- Stage transitions preserve well-formedness of the working set. -/
theorem applyStage_wf {eng : Engine} {op : StageOp} {rows : List RowState}
    {cols : List String} {rows2 : List RowState} {cols2 : List String}
    (h : applyStage eng op rows cols = .ok (rows2, cols2)) (hw : WfRows rows) :
    WfRows rows2 := by
  cases op with
  | fromT table =>
      rw [applyStage] at h
      cases hscan : eng.scanTable table with
      | none => rw [hscan] at h; cases h
      | some td =>
          rw [hscan] at h
          cases h
          intro r hr
          obtain ⟨d, _, rfl⟩ := List.mem_map.mp hr
          simp
  | joinT rightTable onPred =>
      rw [applyStage] at h
      cases hscan : eng.scanTable rightTable with
      | none => rw [hscan] at h; cases h
      | some td =>
          rw [hscan] at h
          simp only at h
          cases hf : filterPred eng onPred
              (rows.flatMap (fun l => td.rows.map (fun rr => project (cols ++ td.columns) (l.data ++ rr)))) with
          | error e => rw [hf] at h; cases h
          | ok matched =>
              rw [hf] at h
              cases h
              exact wf_fresh matched
  | whereT p =>
      rw [applyStage] at h
      cases hm : markRows eng p rows with
      | error e => rw [hm] at h; cases h
      | ok out => rw [hm] at h; cases h; exact (markRows_ok hm).wf hw
  | havingT p =>
      rw [applyStage] at h
      cases hm : markRows eng p rows with
      | error e => rw [hm] at h; cases h
      | ok out => rw [hm] at h; cases h; exact (markRows_ok hm).wf hw
  | groupByT gcols =>
      rw [applyStage] at h
      cases h
      intro r hr
      have := dedupBy_subset _ _ _ hr
      obtain ⟨r0, _, rfl⟩ := List.mem_map.mp this
      simp
  | selectT selCols =>
      simp only [applyStage] at h
      cases h
      intro r hr
      obtain ⟨r0, hr0, rfl⟩ := List.mem_map.mp hr
      simpa using hw r0 hr0
  | distinctT =>
      rw [applyStage] at h
      cases h
      intro r hr
      exact wf_filter_included hw r (dedupBy_subset _ _ _ hr)
  | orderByT keys =>
      rw [applyStage] at h
      cases h
      intro r hr
      rcases List.mem_append.mp hr with h1 | h1
      · have := (List.perm_insertionSort (rowLe keys) _).mem_iff.mp h1
        exact hw r (List.mem_filter.mp this).1
      · exact hw r (List.mem_filter.mp h1).1
  | limitT cap =>
      rw [applyStage] at h
      cases h
      exact (applyLimit_ok cap 0 rows).wf hw
  | offsetT off =>
      rw [applyStage] at h
      cases h
      exact (applyOffset_ok off 0 rows).wf hw

/-- Stage transitions key every row of the working set by the current
column list. -/
theorem applyStage_keys {eng : Engine} {op : StageOp} {rows : List RowState}
    {cols : List String} {rows2 : List RowState} {cols2 : List String}
    (h : applyStage eng op rows cols = .ok (rows2, cols2)) (hk : KeysOf cols rows) :
    KeysOf cols2 rows2 := by
  cases op with
  | fromT table =>
      rw [applyStage] at h
      cases hscan : eng.scanTable table with
      | none => rw [hscan] at h; cases h
      | some td =>
          rw [hscan] at h
          cases h
          intro r hr
          obtain ⟨d, _, rfl⟩ := List.mem_map.mp hr
          exact project_keys _ _
  | joinT rightTable onPred =>
      rw [applyStage] at h
      cases hscan : eng.scanTable rightTable with
      | none => rw [hscan] at h; cases h
      | some td =>
          rw [hscan] at h
          simp only at h
          cases hf : filterPred eng onPred
              (rows.flatMap (fun l => td.rows.map (fun rr => project (cols ++ td.columns) (l.data ++ rr)))) with
          | error e => rw [hf] at h; cases h
          | ok matched =>
              rw [hf] at h
              cases h
              intro r hr
              obtain ⟨d, hd, rfl⟩ := List.mem_map.mp hr
              have hd2 := filterPred_subset eng onPred _ _ hf d hd
              obtain ⟨l, _, hl⟩ := List.mem_flatMap.mp hd2
              obtain ⟨rr, _, rfl⟩ := List.mem_map.mp hl
              exact project_keys _ _
  | whereT p =>
      rw [applyStage] at h
      cases hm : markRows eng p rows with
      | error e => rw [hm] at h; cases h
      | ok out => rw [hm] at h; cases h; exact (markRows_ok hm).keys hk
  | havingT p =>
      rw [applyStage] at h
      cases hm : markRows eng p rows with
      | error e => rw [hm] at h; cases h
      | ok out => rw [hm] at h; cases h; exact (markRows_ok hm).keys hk
  | groupByT gcols =>
      rw [applyStage] at h
      cases h
      intro r hr
      have := dedupBy_subset _ _ _ hr
      obtain ⟨r0, hr0, rfl⟩ := List.mem_map.mp this
      exact hk r0 (List.mem_filter.mp hr0).1
  | selectT selCols =>
      simp only [applyStage] at h
      cases h
      intro r hr
      obtain ⟨r0, hr0, rfl⟩ := List.mem_map.mp hr
      exact project_keys _ _
  | distinctT =>
      rw [applyStage] at h
      cases h
      intro r hr
      have := dedupBy_subset _ _ _ hr
      exact hk r (List.mem_filter.mp this).1
  | orderByT keys =>
      rw [applyStage] at h
      cases h
      intro r hr
      rcases List.mem_append.mp hr with h1 | h1
      · have := (List.perm_insertionSort (rowLe keys) _).mem_iff.mp h1
        exact hk r (List.mem_filter.mp this).1
      · exact hk r (List.mem_filter.mp h1).1
  | limitT cap =>
      rw [applyStage] at h
      cases h
      exact (applyLimit_ok cap 0 rows).keys hk
  | offsetT off =>
      rw [applyStage] at h
      cases h
      exact (applyOffset_ok off 0 rows).keys hk

/-- Inversion of one simulation step. -/
theorem simulate_ok_cons {eng : Engine} {s : PlannedStage} {rest : List PlannedStage}
    {rows : List RowState} {cols : List String} {flow : List DataFlowStep}
    (h : simulate eng (s :: rest) rows cols = .ok flow) :
    ∃ rows2 cols2 tail, applyStage eng s.op rows cols = .ok (rows2, cols2) ∧
      simulate eng rest rows2 cols2 = .ok tail ∧
      flow = mkFlowStep s rows2 cols2 :: tail := by
  rw [simulate] at h
  cases happ : applyStage eng s.op rows cols with
  | error e => rw [happ] at h; cases h
  | ok rc =>
      rw [happ] at h
      obtain ⟨rows2, cols2⟩ := rc
      dsimp only at h
      cases hsim : simulate eng rest rows2 cols2 with
      | error e => rw [hsim] at h; cases h
      | ok tail =>
          rw [hsim] at h
          cases h
          exact ⟨rows2, cols2, tail, rfl, hsim, rfl⟩

theorem simulate_ok_length {eng : Engine} :
    ∀ {stages : List PlannedStage} {rows : List RowState} {cols : List String}
      {flow : List DataFlowStep}, simulate eng stages rows cols = .ok flow →
      flow.length = stages.length := by
  intro stages
  induction stages with
  | nil => intro rows cols flow h; rw [simulate] at h; cases h; rfl
  | cons s rest ih =>
      intro rows cols flow h
      obtain ⟨rows2, cols2, tail, _, hsim, rfl⟩ := simulate_ok_cons h
      simpa using ih hsim

theorem simulate_ok_stats {eng : Engine} :
    ∀ {stages : List PlannedStage} {rows : List RowState} {cols : List String}
      {flow : List DataFlowStep}, simulate eng stages rows cols = .ok flow →
      ∀ st ∈ flow, st.stats = mkStats st.rows := by
  intro stages
  induction stages with
  | nil => intro rows cols flow h; rw [simulate] at h; cases h; simp
  | cons s rest ih =>
      intro rows cols flow h
      obtain ⟨rows2, cols2, tail, _, hsim, rfl⟩ := simulate_ok_cons h
      intro st hst
      rcases List.mem_cons.mp hst with rfl | hst
      · rfl
      · exact ih hsim st hst

/-- Every emitted step carries the order and type of its planned stage. -/
theorem simulate_ok_get {eng : Engine} :
    ∀ {stages : List PlannedStage} {rows : List RowState} {cols : List String}
      {flow : List DataFlowStep}, simulate eng stages rows cols = .ok flow →
      ∀ i (hf : i < flow.length) (hs : i < stages.length),
        (flow.get ⟨i, hf⟩).stepOrder = (stages.get ⟨i, hs⟩).order ∧
        (flow.get ⟨i, hf⟩).stepType = stageType (stages.get ⟨i, hs⟩).op := by
  intro stages
  induction stages with
  | nil => intro rows cols flow h i hf hs; cases hs
  | cons s rest ih =>
      intro rows cols flow h i hf hs
      obtain ⟨rows2, cols2, tail, _, hsim, rfl⟩ := simulate_ok_cons h
      match i with
      | 0 => exact ⟨rfl, rfl⟩
      | n + 1 =>
          have hf2 : n < tail.length := by simpa using hf
          have hs2 : n < rest.length := by simpa using hs
          simpa using ih hsim n hf2 hs2

/-- Any property of the working set preserved by every stage transition
holds of every emitted data-flow step, given it holds initially. -/
theorem simulate_ok_inv {eng : Engine} {P : List RowState → List String → Prop}
    (hP : ∀ op rows cols rows2 cols2,
      applyStage eng op rows cols = .ok (rows2, cols2) → P rows cols → P rows2 cols2) :
    ∀ {stages : List PlannedStage} {rows : List RowState} {cols : List String}
      {flow : List DataFlowStep}, simulate eng stages rows cols = .ok flow →
      P rows cols → ∀ st ∈ flow, P st.rows st.columns := by
  intro stages
  induction stages with
  | nil => intro rows cols flow h hp st hst; rw [simulate] at h; cases h; cases hst
  | cons s rest ih =>
      intro rows cols flow h hp st hst
      obtain ⟨rows2, cols2, tail, happ, hsim, rfl⟩ := simulate_ok_cons h
      have hp2 := hP _ _ _ _ _ happ hp
      rcases List.mem_cons.mp hst with rfl | hst
      · exact hp2
      · exact ih hsim hp2 st hst

/-- The transition between two consecutive emitted steps is the
application of the second step planned stage to the first step rows
and columns. -/
theorem simulate_ok_chain {eng : Engine} :
    ∀ {stages : List PlannedStage} {rows : List RowState} {cols : List String}
      {flow : List DataFlowStep}, simulate eng stages rows cols = .ok flow →
      ∀ i (h0 : i < flow.length) (h1 : i + 1 < flow.length) (hs : i + 1 < stages.length),
        applyStage eng ((stages.get ⟨i + 1, hs⟩).op) ((flow.get ⟨i, h0⟩).rows)
            ((flow.get ⟨i, h0⟩).columns)
          = .ok ((flow.get ⟨i + 1, h1⟩).rows, (flow.get ⟨i + 1, h1⟩).columns) := by
  intro stages
  induction stages with
  | nil => intro rows cols flow h i h0 h1 hs; cases hs
  | cons s rest ih =>
      intro rows cols flow h i h0 h1 hs
      obtain ⟨rows2, cols2, tail, happ, hsim, rfl⟩ := simulate_ok_cons h
      match i with
      | 0 =>
          cases rest with
          | nil => simp at hs
          | cons s2 rest2 =>
              obtain ⟨rows3, cols3, tail2, happ2, hsim2, rfl⟩ := simulate_ok_cons hsim
              simpa using happ2
      | n + 1 =>
          have h0t : n < tail.length := by simpa using h0
          have h1t : n + 1 < tail.length := by simpa using h1
          have hst : n + 1 < rest.length := by simpa using hs
          simpa using ih hsim n h0t h1t hst

/-- WHERE transitions mark with the rendered predicate reason. -/
theorem applyStage_whereT {eng : Engine} {p : String} {rows : List RowState}
    {cols : List String} {rows2 : List RowState} {cols2 : List String}
    (h : applyStage eng (.whereT p) rows cols = .ok (rows2, cols2)) :
    MarksWith (noMatchReason p) rows rows2 ∧ cols2 = cols := by
  rw [applyStage] at h
  cases hm : markRows eng p rows with
  | error e => rw [hm] at h; cases h
  | ok out =>
      rw [hm] at h
      cases h
      exact ⟨markRows_ok hm, rfl⟩

/-- HAVING transitions mark with the rendered predicate reason. -/
theorem applyStage_havingT {eng : Engine} {p : String} {rows : List RowState}
    {cols : List String} {rows2 : List RowState} {cols2 : List String}
    (h : applyStage eng (.havingT p) rows cols = .ok (rows2, cols2)) :
    MarksWith (noMatchReason p) rows rows2 ∧ cols2 = cols := by
  rw [applyStage] at h
  cases hm : markRows eng p rows with
  | error e => rw [hm] at h; cases h
  | ok out =>
      rw [hm] at h
      cases h
      exact ⟨markRows_ok hm, rfl⟩

/-- LIMIT transitions mark with the windowing reason. -/
theorem applyStage_limitT {eng : Engine} {cap : Nat} {rows : List RowState}
    {cols : List String} {rows2 : List RowState} {cols2 : List String}
    (h : applyStage eng (.limitT cap) rows cols = .ok (rows2, cols2)) :
    MarksWith exclLimitReason rows rows2 ∧ cols2 = cols := by
  rw [applyStage] at h
  cases h
  exact ⟨applyLimit_ok cap 0 rows, rfl⟩

/-- OFFSET transitions mark with the windowing reason. -/
theorem applyStage_offsetT {eng : Engine} {off : Nat} {rows : List RowState}
    {cols : List String} {rows2 : List RowState} {cols2 : List String}
    (h : applyStage eng (.offsetT off) rows cols = .ok (rows2, cols2)) :
    MarksWith exclLimitReason rows rows2 ∧ cols2 = cols := by
  rw [applyStage] at h
  cases h
  exact ⟨applyOffset_ok off 0 rows, rfl⟩

/-- SELECT transitions only re-project the data of each row. -/
theorem applyStage_selectT {eng : Engine} {sel : Option (List String)}
    {rows : List RowState} {cols : List String} {rows2 : List RowState}
    {cols2 : List String}
    (h : applyStage eng (.selectT sel) rows cols = .ok (rows2, cols2)) :
    rows2 = rows.map (fun r => { r with data := project cols2 r.data }) := by
  simp only [applyStage] at h
  cases h
  rfl

/-- ORDER BY transitions permute the working set. -/
theorem applyStage_orderByT {eng : Engine} {keys : List (String × Bool)}
    {rows : List RowState} {cols : List String} {rows2 : List RowState}
    {cols2 : List String}
    (h : applyStage eng (.orderByT keys) rows cols = .ok (rows2, cols2)) :
    List.Perm rows2 rows := by
  rw [applyStage] at h
  cases h
  exact ((List.perm_insertionSort _ _).append_right _).trans
    (List.filter_append_perm (fun r => r.included) rows)

/-! Planner lemmas. -/

theorem number_length (n : Nat) :
    ∀ (l : List (StageOp × String)), (number n l).length = l.length := by
  intro l
  induction l generalizing n with
  | nil => rfl
  | cons p rest ih => simpa [number] using ih (n + 1)

theorem number_get (n : Nat) :
    ∀ (l : List (StageOp × String)) i (h : i < (number n l).length)
      (h2 : i < l.length),
      (number n l).get ⟨i, h⟩
        = ⟨n + i, (l.get ⟨i, h2⟩).1, (l.get ⟨i, h2⟩).2⟩ := by
  intro l
  induction l generalizing n with
  | nil => intro i h h2; cases h2
  | cons p rest ih =>
      intro i h h2
      match i with
      | 0 => simp [number]
      | m + 1 =>
          have hm : m < (number (n + 1) rest).length := by
            simpa [number] using h
          have hm2 : m < rest.length := by simpa using h2
          have := ih (n + 1) m hm hm2
          simp only [number, List.get_cons_succ]
          rw [this]
          simp [Nat.add_assoc, Nat.add_comm 1 m]

theorem number_map_type (n : Nat) :
    ∀ (l : List (StageOp × String)),
      (number n l).map (fun s => stageType s.op) = l.map (fun p => stageType p.1) := by
  intro l
  induction l generalizing n with
  | nil => rfl
  | cons p rest ih => simpa [number] using ih (n + 1)

/-! Error-taxonomy lemmas: the simulator only ever aborts with
`SQL_EXECUTION_ERROR`. -/

theorem markRows_error {eng : Engine} {p : String} :
    ∀ {rows : List RowState} {e : ApiErrorCode},
      markRows eng p rows = .error e → e = .SQL_EXECUTION_ERROR := by
  intro rows
  induction rows with
  | nil => intro e h; rw [markRows] at h; cases h
  | cons r rest ih =>
      intro e h
      rw [markRows] at h
      cases hinc : r.included with
      | false =>
          rw [hinc] at h
          simp only [Bool.false_eq_true, if_false] at h
          cases htl : markRows eng p rest with
          | error e2 => rw [htl] at h; cases h; exact ih htl
          | ok tail => rw [htl] at h; cases h
      | true =>
          rw [hinc] at h
          simp only [if_true] at h
          cases hev : eng.evalPred p r.data with
          | none => rw [hev] at h; cases h; rfl
          | some b =>
              rw [hev] at h
              cases b with
              | true =>
                  cases htl : markRows eng p rest with
                  | error e2 => rw [htl] at h; cases h; exact ih htl
                  | ok tail => rw [htl] at h; cases h
              | false =>
                  cases htl : markRows eng p rest with
                  | error e2 => rw [htl] at h; cases h; exact ih htl
                  | ok tail => rw [htl] at h; cases h

theorem filterPred_error {eng : Engine} {p : String} :
    ∀ {l : List Row} {e : ApiErrorCode},
      filterPred eng p l = .error e → e = .SQL_EXECUTION_ERROR := by
  intro l
  induction l with
  | nil => intro e h; rw [filterPred] at h; cases h
  | cons r rest ih =>
      intro e h
      rw [filterPred] at h
      cases hev : eng.evalPred p r with
      | none => rw [hev] at h; cases h; rfl
      | some b =>
          rw [hev] at h
          cases htl : filterPred eng p rest with
          | error e2 => rw [htl] at h; cases h; exact ih htl
          | ok tail => rw [htl] at h; cases h

theorem applyStage_error {eng : Engine} {op : StageOp} {rows : List RowState}
    {cols : List String} {e : ApiErrorCode}
    (h : applyStage eng op rows cols = .error e) : e = .SQL_EXECUTION_ERROR := by
  cases op with
  | fromT table =>
      rw [applyStage] at h
      cases hscan : eng.scanTable table with
      | none => rw [hscan] at h; cases h; rfl
      | some td => rw [hscan] at h; cases h
  | joinT rightTable onPred =>
      rw [applyStage] at h
      cases hscan : eng.scanTable rightTable with
      | none => rw [hscan] at h; cases h; rfl
      | some td =>
          rw [hscan] at h
          simp only at h
          cases hf : filterPred eng onPred
              (rows.flatMap (fun l => td.rows.map
                (fun rr => project (cols ++ td.columns) (l.data ++ rr)))) with
          | error e2 => rw [hf] at h; cases h; exact filterPred_error hf
          | ok matched => rw [hf] at h; cases h
  | whereT p =>
      rw [applyStage] at h
      cases hm : markRows eng p rows with
      | error e2 => rw [hm] at h; cases h; exact markRows_error hm
      | ok out => rw [hm] at h; cases h
  | havingT p =>
      rw [applyStage] at h
      cases hm : markRows eng p rows with
      | error e2 => rw [hm] at h; cases h; exact markRows_error hm
      | ok out => rw [hm] at h; cases h
  | groupByT gcols => rw [applyStage] at h; cases h
  | selectT selCols => simp only [applyStage] at h; cases h
  | distinctT => rw [applyStage] at h; cases h
  | orderByT keys => rw [applyStage] at h; cases h
  | limitT cap => rw [applyStage] at h; cases h
  | offsetT off => rw [applyStage] at h; cases h

theorem simulate_error {eng : Engine} :
    ∀ {stages : List PlannedStage} {rows : List RowState} {cols : List String}
      {e : ApiErrorCode}, simulate eng stages rows cols = .error e →
      e = .SQL_EXECUTION_ERROR := by
  intro stages
  induction stages with
  | nil => intro rows cols e h; rw [simulate] at h; cases h
  | cons s rest ih =>
      intro rows cols e h
      rw [simulate] at h
      cases happ : applyStage eng s.op rows cols with
      | error e2 => rw [happ] at h; cases h; exact applyStage_error happ
      | ok rc =>
          rw [happ] at h
          obtain ⟨rows2, cols2⟩ := rc
          dsimp only at h
          cases hsim : simulate eng rest rows2 cols2 with
          | error e2 => rw [hsim] at h; cases h; exact ih hsim
          | ok tail => rw [hsim] at h; cases h

theorem visualizeStructured_error {eng : Engine} {qtext : String}
    {q : StructuredQuery} {e : ApiErrorCode}
    (h : visualizeStructured eng qtext q = .error e) : e = .SQL_EXECUTION_ERROR := by
  rw [visualizeStructured] at h
  cases hsim : simulate eng (plan q) [] [] with
  | error e2 => rw [hsim] at h; cases h; exact simulate_error hsim
  | ok flow => rw [hsim] at h; cases h

/-- In a list of execution steps whose orders are dense starting at `b`,
`find?` by order behaves as positional lookup. -/
theorem find_dense :
    ∀ (es : List ExecutionStep) (b : Nat),
      (∀ j (h : j < es.length), (es.get ⟨j, h⟩).order = j + b) →
      ∀ i, i < es.length →
        es.find? (fun st => st.order == i + b) = es[i]? := by
  intro es
  induction es with
  | nil => intro b _ i hi; cases hi
  | cons e tl ih =>
      intro b hord i hi
      have he : e.order = b := by simpa using hord 0 (by simp)
      match i with
      | 0 =>
          have hp : (fun st => st.order == 0 + b) e = true := by simp [he]
          have hfind : List.find? (fun st => st.order == 0 + b) (e :: tl) = some e :=
            List.find?_cons_of_pos _ hp
          rw [hfind]
          simp
      | n + 1 =>
          have hp : ¬ (fun st => st.order == n + 1 + b) e = true := by
            simp only [he, beq_iff_eq]
            omega
          have hfind : List.find? (fun st => st.order == n + 1 + b) (e :: tl)
              = List.find? (fun st => st.order == n + 1 + b) tl :=
            List.find?_cons_of_neg _ hp
          have hord2 : ∀ j (h : j < tl.length), (tl.get ⟨j, h⟩).order = j + (b + 1) := by
            intro j hj
            have := hord (j + 1) (by simpa using hj)
            simpa [Nat.add_assoc, Nat.add_comm 1 b] using this
          have heq : n + 1 + b = n + (b + 1) := by omega
          rw [hfind, heq, ih (b + 1) hord2 n (by simpa using hi)]
          simp

/-! The claims. -/

/-- Claim C9: the store `reset` action empties `tables` and `tableData`,
nulls `erDiagram` and `visualization`, zeroes `currentStepIndex`, nulls
`executionError` and `executionMessage`, moves the view back to `setup`,
and leaves `sessionId`, `isSessionLoading`, `sessionError`, `setupSQL`,
`querySQL` and `isExecuting` unchanged. -/
theorem C9_reset_frame (s : AppState) :
    (reset s).tables = [] ∧ (reset s).tableData = [] ∧
    (reset s).erDiagram = none ∧ (reset s).visualization = none ∧
    (reset s).currentStepIndex = 0 ∧ (reset s).executionError = none ∧
    (reset s).executionMessage = none ∧ (reset s).currentView = .setup ∧
    (reset s).sessionId = s.sessionId ∧
    (reset s).isSessionLoading = s.isSessionLoading ∧
    (reset s).sessionError = s.sessionError ∧
    (reset s).setupSQL = s.setupSQL ∧
    (reset s).querySQL = s.querySQL ∧
    (reset s).isExecuting = s.isExecuting :=
  ⟨rfl, rfl, rfl, rfl, rfl, rfl, rfl, rfl, rfl, rfl, rfl, rfl, rfl, rfl⟩

/-- Claim C10: `initSession` returns the stored session id whenever
validating it succeeds (creating no new session); otherwise it creates a
fresh session and stores its id; in all cases the returned id ends up
stored under the `sql-viz-session-id` key. -/
theorem C10_initSession (env : SessionEnv) :
    (initSession env).stored = some (initSession env).returnedId ∧
    (∀ id, env.stored = some id → env.validSession id = true →
      (initSession env).returnedId = id ∧ (initSession env).createdNew = false ∧
      (initSession env).stored = env.stored) ∧
    ((env.stored = none ∨
        ∀ id, env.stored = some id → env.validSession id = false) →
      (initSession env).returnedId = env.freshId ∧
      (initSession env).createdNew = true) := by
  rcases hst : env.stored with _ | id
  · refine ⟨by simp [initSession, hst], ?_, ?_⟩
    · intro id hid
      cases hid
    · intro _
      simp [initSession, hst]
  · cases hv : env.validSession id with
    | true =>
        refine ⟨by simp [initSession, hst, hv], ?_, ?_⟩
        · intro id2 hid2 hv2
          injection hid2 with hid2
          subst hid2
          simp [initSession, hst, hv]
        · intro hcase
          rcases hcase with h | h
          · cases h
          · have := h id rfl
            rw [hv] at this
            cases this
    | false =>
        refine ⟨by simp [initSession, hst, hv], ?_, ?_⟩
        · intro id2 hid2 hv2
          injection hid2 with hid2
          subst hid2
          rw [hv] at hv2
          cases hv2
        · intro _
          simp [initSession, hst, hv]

/-- Closed instance of the `initSession` claim: a stale stored id is
replaced by the freshly created one, and the returned id is the stored
one afterwards. -/
theorem C10_initSession_witness :
    (initSession { stored := some "stale", validSession := fun _ => false,
                   freshId := "fresh" }).stored
      = some (initSession { stored := some "stale", validSession := fun _ => false,
                            freshId := "fresh" }).returnedId ∧
    (initSession { stored := some "stale", validSession := fun _ => false,
                   freshId := "fresh" }).returnedId = "fresh" := by
  refine ⟨(C10_initSession _).1, ?_⟩
  exact ((C10_initSession _).2.2 (Or.inr (fun id _ => rfl))).1

theorem applyAction_inv (a : StepAction) (s : AppState)
    (hInv : StoreInv s) (hg : GoodAction a) : StoreInv (applyAction a s) := by
  cases a with
  | next =>
      intro vis hvis
      cases hv : s.visualization with
      | none =>
          have hstep : applyAction .next s = s := by
            rw [applyAction, nextStep, hv]
          rw [hstep] at hvis ⊢
          exact hInv vis hvis
      | some vis0 =>
          by_cases hlt : s.currentStepIndex < vis0.dataFlow.length - 1
          · have hstep : applyAction .next s
                = { s with currentStepIndex := s.currentStepIndex + 1 } := by
              rw [applyAction, nextStep, hv]
              dsimp only
              rw [if_pos hlt]
            rw [hstep] at hvis ⊢
            have hveq : vis0 = vis := by
              have h2 : s.visualization = some vis := hvis
              rw [hv] at h2
              injection h2
            subst hveq
            have := hInv vis0 hv
            show s.currentStepIndex + 1 < vis0.dataFlow.length
            omega
          · have hstep : applyAction .next s = s := by
              rw [applyAction, nextStep, hv]
              dsimp only
              rw [if_neg hlt]
            rw [hstep] at hvis ⊢
            exact hInv vis hvis
  | prev =>
      intro vis hvis
      by_cases hpos : s.currentStepIndex > 0
      · have hstep : applyAction .prev s
            = { s with currentStepIndex := s.currentStepIndex - 1 } := by
          rw [applyAction, prevStep, if_pos hpos]
        rw [hstep] at hvis ⊢
        have hv : s.visualization = some vis := hvis
        have := hInv vis hv
        show s.currentStepIndex - 1 < vis.dataFlow.length
        omega
      · have hstep : applyAction .prev s = s := by
          rw [applyAction, prevStep, if_neg hpos]
        rw [hstep] at hvis ⊢
        exact hInv vis hvis
  | setVis v =>
      intro vis hvis
      have hv : v = some vis := hvis
      subst hv
      have hne : vis.dataFlow ≠ [] := hg
      show (0 : Nat) < vis.dataFlow.length
      exact List.length_pos.mpr hne

theorem applyActions_inv (acts : List StepAction) (s : AppState)
    (hInv : StoreInv s) (hg : ∀ a ∈ acts, GoodAction a) :
    StoreInv (applyActions acts s) := by
  induction acts generalizing s with
  | nil => exact hInv
  | cons a rest ih =>
      rw [applyActions]
      exact ih _ (applyAction_inv a s hInv (hg a (List.mem_cons_self _ _)))
        (fun b hb => hg b (List.mem_cons_of_mem _ hb))

/-- Claim C8: `nextStep` increments the step index by one exactly when a
visualization is loaded and the index is below the last data-flow index,
and otherwise leaves the state unchanged; `prevStep` decrements by one
exactly when the index is positive and leaves the state unchanged at 0;
`setVisualization` resets the index to 0; and under any sequence of
these actions (with loaded visualizations having at least one data-flow
step) the index never leaves `[0, n-1]`. -/
theorem C8_stepper :
    (∀ (s : AppState) (vis : QueryVisualization), s.visualization = some vis →
      (s.currentStepIndex < vis.dataFlow.length - 1 →
        (nextStep s).currentStepIndex = s.currentStepIndex + 1) ∧
      (¬ s.currentStepIndex < vis.dataFlow.length - 1 → nextStep s = s)) ∧
    (∀ s : AppState, s.visualization = none → nextStep s = s) ∧
    (∀ s : AppState,
      (0 < s.currentStepIndex →
        (prevStep s).currentStepIndex = s.currentStepIndex - 1 ∧
        (prevStep s).currentStepIndex + 1 = s.currentStepIndex) ∧
      (s.currentStepIndex = 0 → prevStep s = s)) ∧
    (∀ (v : Option QueryVisualization) (s : AppState),
      (setVisualization v s).currentStepIndex = 0) ∧
    (∀ (s : AppState) (acts : List StepAction), StoreInv s →
      (∀ a ∈ acts, GoodAction a) → StoreInv (applyActions acts s)) := by
  refine ⟨?_, ?_, ?_, ?_, fun s acts h1 h2 => applyActions_inv acts s h1 h2⟩
  · intro s vis hvis
    constructor
    · intro hlt
      rw [nextStep, hvis]
      dsimp only
      rw [if_pos hlt]
    · intro hlt
      rw [nextStep, hvis]
      dsimp only
      rw [if_neg hlt]
  · intro s hvis
    rw [nextStep, hvis]
  · intro s
    constructor
    · intro hpos
      rw [prevStep, if_pos hpos]
      exact ⟨rfl, by simp only; omega⟩
    · intro hz
      rw [prevStep, if_neg (by omega)]
  · intro v s
    rfl

def dummyFlowStep (n : Nat) : DataFlowStep :=
  { stepOrder := n
    stepType := .FROM
    rows := []
    columns := []
    description := ""
    stats := ⟨0, 0, 0⟩ }

def visTwoSteps : QueryVisualization :=
  { originalQuery := ""
    executionSteps := []
    dataFlow := [dummyFlowStep 1, dummyFlowStep 2]
    finalResult := emptyTD }

def storeState0 : AppState :=
  { sessionId := none
    isSessionLoading := true
    sessionError := none
    currentView := .setup
    setupSQL := ""
    querySQL := ""
    tables := []
    tableData := []
    erDiagram := none
    visualization := some visTwoSteps
    currentStepIndex := 0
    isExecuting := false
    executionError := none
    executionMessage := none }

/-- Closed instance of the stepping claim on a two-step visualization. -/
theorem C8_stepper_witness :
    (nextStep storeState0).currentStepIndex = 1 ∧
    prevStep storeState0 = storeState0 ∧
    (setVisualization none storeState0).currentStepIndex = 0 ∧
    StoreInv (applyActions [.next, .next, .prev] storeState0) := by
  refine ⟨?_, ?_, ?_, ?_⟩
  · exact (C8_stepper.1 storeState0 visTwoSteps rfl).1 (by decide)
  · exact (C8_stepper.2.2.1 storeState0).2 rfl
  · exact C8_stepper.2.2.2.1 none storeState0
  · refine C8_stepper.2.2.2.2 storeState0 [.next, .next, .prev] ?_ ?_
    · intro vis hvis
      injection hvis with hvis
      subst hvis
      decide
    · intro a ha
      rcases List.mem_cons.mp ha with rfl | ha
      · trivial
      rcases List.mem_cons.mp ha with rfl | ha
      · trivial
      rcases List.mem_cons.mp ha with rfl | ha
      · trivial
      · cases ha

/-- Claim C4: on every data-flow step of every visualization,
`stats.totalRows` is the length of the row list, `stats.includedRows`
counts the included rows, and totals decompose as included + excluded. -/
theorem C4_stats (eng : Engine) (qtext : String) (q : StructuredQuery)
    (v : QueryVisualization) (h : visualizeStructured eng qtext q = .ok v) :
    ∀ st ∈ v.dataFlow,
      st.stats.totalRows = st.rows.length ∧
      st.stats.includedRows = (st.rows.filter (fun r => r.included)).length ∧
      st.stats.totalRows = st.stats.includedRows + st.stats.excludedRows := by
  rw [visualizeStructured] at h
  cases hsim : simulate eng (plan q) [] [] with
  | error e => rw [hsim] at h; cases h
  | ok flow =>
      rw [hsim] at h
      cases h
      intro st hst
      have hstats := simulate_ok_stats hsim st hst
      rw [hstats]
      refine ⟨rfl, rfl, ?_⟩
      have hle := List.length_filter_le (fun r => r.included) st.rows
      simp only [mkStats]
      omega

/-- Closed instance of the stats claim on the sample query. -/
theorem C4_stats_witness :
    visualizeStructured sampleEngine sampleText sampleQuery = .ok sampleVis ∧
    ∀ st ∈ sampleVis.dataFlow,
      st.stats.totalRows = st.rows.length ∧
      st.stats.includedRows = (st.rows.filter (fun r => r.included)).length ∧
      st.stats.totalRows = st.stats.includedRows + st.stats.excludedRows :=
  ⟨rfl, C4_stats sampleEngine sampleText sampleQuery sampleVis rfl⟩

/-- Orders in the emitted plan are dense and 1-based. -/
theorem plan_order (q : StructuredQuery) :
    ∀ j (hj : j < (plan q).length), ((plan q).get ⟨j, hj⟩).order = 1 + j := by
  intro j hj
  have hj2 : j < (stageOps q).length := by
    simpa [plan, number_length] using hj
  have := number_get 1 (stageOps q) j (by simpa [plan] using hj) hj2
  simpa [plan] using congrArg PlannedStage.order this

/-- Claim C5: `executionSteps` and `dataFlow` have the same length,
`dataFlow[i].stepOrder = executionSteps[i].order` for all i, and the
store selector `selectCurrentExecutionStep` (which looks the execution
step up by order) always succeeds and returns the step at the same
position. -/
theorem C5_alignment (eng : Engine) (qtext : String) (q : StructuredQuery)
    (v : QueryVisualization) (h : visualizeStructured eng qtext q = .ok v) :
    v.executionSteps.length = v.dataFlow.length ∧
    (∀ i (hf : i < v.dataFlow.length) (he : i < v.executionSteps.length),
      (v.dataFlow.get ⟨i, hf⟩).stepOrder = (v.executionSteps.get ⟨i, he⟩).order) ∧
    (∀ (s : AppState) (i : Nat) (_hf : i < v.dataFlow.length)
      (he : i < v.executionSteps.length),
      s.visualization = some v → s.currentStepIndex = i →
      selectCurrentExecutionStep s = some (v.executionSteps.get ⟨i, he⟩)) := by
  rw [visualizeStructured] at h
  cases hsim : simulate eng (plan q) [] [] with
  | error e => rw [hsim] at h; cases h
  | ok flow =>
      rw [hsim] at h
      cases h
      have hlenf : flow.length = (plan q).length := simulate_ok_length hsim
      have horder_es : ∀ j (hj : j < ((plan q).map mkExecutionStep).length),
          (((plan q).map mkExecutionStep).get ⟨j, hj⟩).order = j + 1 := by
        intro j hj
        have hj2 : j < (plan q).length := by simpa using hj
        have hmap : ((plan q).map mkExecutionStep).get ⟨j, hj⟩
            = mkExecutionStep ((plan q).get ⟨j, hj2⟩) := by
          simp [List.get_eq_getElem]
        rw [hmap]
        show ((plan q).get ⟨j, hj2⟩).order = j + 1
        rw [plan_order q j hj2, Nat.add_comm]
      have hso : ∀ i (hf : i < flow.length),
          (flow.get ⟨i, hf⟩).stepOrder = 1 + i := by
        intro i hf
        have hs : i < (plan q).length := hlenf ▸ hf
        have := (simulate_ok_get hsim i hf hs).1
        rw [this, plan_order q i hs]
      refine ⟨by simp [hlenf], ?_, ?_⟩
      · intro i hf he
        show (flow.get ⟨i, hf⟩).stepOrder = _
        rw [hso i hf, horder_es i he, Nat.add_comm]
      · intro s i hf he hviss hidx
        rw [selectCurrentExecutionStep, hviss]
        dsimp only
        subst hidx
        have hdf : flow[s.currentStepIndex]? = some (flow.get ⟨s.currentStepIndex, hf⟩) := by
          simp [List.get_eq_getElem]
        rw [hdf]
        dsimp only
        rw [hso s.currentStepIndex hf, Nat.add_comm 1 s.currentStepIndex]
        rw [find_dense ((plan q).map mkExecutionStep) 1 horder_es s.currentStepIndex he]
        have hp : s.currentStepIndex < (plan q).length := by simpa using he
        simp [List.get_eq_getElem, List.getElem?_eq_getElem hp]

/-- Closed instance of the alignment claim on the sample query, at step
index 1 (the WHERE step). -/
theorem C5_alignment_witness :
    visualizeStructured sampleEngine sampleText sampleQuery = .ok sampleVis ∧
    sampleVis.executionSteps.length = sampleVis.dataFlow.length ∧
    selectCurrentExecutionStep { storeState0 with
        visualization := some sampleVis, currentStepIndex := 1 }
      = sampleVis.executionSteps[1]? := by
  have h1 : (1 : Nat) < sampleVis.dataFlow.length := by decide
  have h2 : (1 : Nat) < sampleVis.executionSteps.length := by decide
  refine ⟨rfl, (C5_alignment sampleEngine sampleText sampleQuery sampleVis rfl).1, ?_⟩
  have := (C5_alignment sampleEngine sampleText sampleQuery sampleVis rfl).2.2
    { storeState0 with visualization := some sampleVis, currentStepIndex := 1 }
    1 h1 h2 rfl rfl
  rw [this]
  simp [List.get_eq_getElem]

/-- Claim C1: `finalResult.rows` is exactly the data of the rows marked
included in the last data-flow step, projected to (keyed by) that step
columns: every included row appears, nothing else appears, and the
result columns are the last step columns. -/
theorem C1_finalResult (eng : Engine) (qtext : String) (q : StructuredQuery)
    (v : QueryVisualization) (h : visualizeStructured eng qtext q = .ok v) :
    v.dataFlow ≠ [] ∧
    ∀ last, v.dataFlow.getLast? = some last →
      v.finalResult.columns = last.columns ∧
      v.finalResult.rows
        = (last.rows.filter (fun r => r.included)).map (fun r => r.data) ∧
      (∀ r ∈ last.rows, r.included = true → r.data ∈ v.finalResult.rows) ∧
      (∀ d ∈ v.finalResult.rows, ∃ r, r ∈ last.rows ∧ r.included = true ∧ r.data = d) ∧
      (∀ d ∈ v.finalResult.rows, d.map Prod.fst = last.columns) := by
  rw [visualizeStructured] at h
  cases hsim : simulate eng (plan q) [] [] with
  | error e => rw [hsim] at h; cases h
  | ok flow =>
      rw [hsim] at h
      cases h
      have hlenf : flow.length = (plan q).length := simulate_ok_length hsim
      have hplan : 0 < (plan q).length := by
        show 0 < (number 1 (stageOps q)).length
        rw [number_length]
        show 0 < ((_ :: _ : List (StageOp × String))).length
        simp
      have hne : flow ≠ [] := by
        have : 0 < flow.length := hlenf ▸ hplan
        exact List.ne_nil_of_length_pos this
      refine ⟨hne, ?_⟩
      intro last hlast
      have hmem : last ∈ flow :=
        List.mem_of_mem_getLast? (Option.mem_def.mpr hlast)
      have hkeys : KeysOf last.columns last.rows := by
        have hkinit : KeysOf ([] : List String) ([] : List RowState) := by
          intro r hr; cases hr
        exact simulate_ok_inv
          (P := fun rows cols => KeysOf cols rows)
          (fun op rows cols rows2 cols2 happ hk => applyStage_keys happ hk)
          hsim hkinit last hmem
      show (finalFrom flow).columns = last.columns ∧ (finalFrom flow).rows = _ ∧ _
      rw [finalFrom, hlast]
      refine ⟨rfl, rfl, ?_, ?_, ?_⟩
      · intro r hr hinc
        exact List.mem_map.mpr ⟨r, List.mem_filter.mpr ⟨hr, by simp [hinc]⟩, rfl⟩
      · intro d hd
        obtain ⟨r, hrf, rfl⟩ := List.mem_map.mp hd
        obtain ⟨hrl, hrinc⟩ := List.mem_filter.mp hrf
        exact ⟨r, hrl, by simpa using hrinc, rfl⟩
      · intro d hd
        obtain ⟨r, hrf, rfl⟩ := List.mem_map.mp hd
        exact hkeys r (List.mem_filter.mp hrf).1

/-- Closed instance of the final-result claim on the sample query:
final result is Alice and Charlie, keyed by the projected columns. -/
theorem C1_finalResult_witness :
    visualizeStructured sampleEngine sampleText sampleQuery = .ok sampleVis ∧
    ∃ last, sampleVis.dataFlow.getLast? = some last ∧
      sampleVis.finalResult.rows
        = (last.rows.filter (fun r => r.included)).map (fun r => r.data) ∧
      sampleVis.finalResult.columns = last.columns := by
  have hlast : ∃ last, sampleVis.dataFlow.getLast? = some last := by
    cases hl : sampleVis.dataFlow.getLast? with
    | none =>
        have := (C1_finalResult sampleEngine sampleText sampleQuery sampleVis rfl).1
        rw [List.getLast?_eq_none_iff] at hl
        exact absurd hl this
    | some last => exact ⟨last, rfl⟩
  obtain ⟨last, hl⟩ := hlast
  have hprops := (C1_finalResult sampleEngine sampleText sampleQuery sampleVis rfl).2 last hl
  exact ⟨rfl, last, hl, hprops.2.1, hprops.1⟩

/-- Reason present exactly on excluded rows, at every step. -/
def ReasonIffExcluded (v : QueryVisualization) : Prop :=
  ∀ st ∈ v.dataFlow, ∀ r ∈ st.rows, (r.excludedReason ≠ none ↔ r.included = false)

/-- Exclusions survive one stage transition unchanged: in-place marking
stages keep excluded rows untouched at their position, SELECT keeps
inclusion state and reason at each position, ORDER BY carries every
excluded row over unchanged. -/
def StickyStep (a b : DataFlowStep) : Prop :=
  (b.stepType = .WHERE ∨ b.stepType = .HAVING ∨
      b.stepType = .LIMIT ∨ b.stepType = .OFFSET →
    b.rows.length = a.rows.length ∧
    ∀ j (hj : j < a.rows.length) (hb : j < b.rows.length),
      (a.rows.get ⟨j, hj⟩).included = false →
      b.rows.get ⟨j, hb⟩ = a.rows.get ⟨j, hj⟩) ∧
  (b.stepType = .SELECT →
    b.rows.length = a.rows.length ∧
    ∀ j (hj : j < a.rows.length) (hb : j < b.rows.length),
      (b.rows.get ⟨j, hb⟩).included = (a.rows.get ⟨j, hj⟩).included ∧
      (b.rows.get ⟨j, hb⟩).excludedReason = (a.rows.get ⟨j, hj⟩).excludedReason) ∧
  (b.stepType = .ORDER_BY →
    ∀ r ∈ a.rows, r.included = false → r ∈ b.rows)

/-- Claim C3: at every stage the exclusion reason is present iff the row
is excluded, and a row excluded at some stage stays excluded with the
same unchanged reason at every later stage that still physically carries
it (GROUP BY and DISTINCT, the physical shrinks, remove rows instead). -/
theorem C3_sticky_exclusion (eng : Engine) (qtext : String) (q : StructuredQuery)
    (v : QueryVisualization) (h : visualizeStructured eng qtext q = .ok v) :
    ReasonIffExcluded v ∧
    ∀ i (h0 : i < v.dataFlow.length) (h1 : i + 1 < v.dataFlow.length),
      StickyStep (v.dataFlow.get ⟨i, h0⟩) (v.dataFlow.get ⟨i + 1, h1⟩) := by
  rw [visualizeStructured] at h
  cases hsim : simulate eng (plan q) [] [] with
  | error e => rw [hsim] at h; cases h
  | ok flow =>
      rw [hsim] at h
      cases h
      have hlenf : flow.length = (plan q).length := simulate_ok_length hsim
      constructor
      · intro st hst
        exact simulate_ok_inv (P := fun rows cols => WfRows rows)
          (fun op rows cols rows2 cols2 happ hw => applyStage_wf happ hw)
          hsim (fun r hr => by cases hr) st hst
      · intro i h0 h1
        have hs1 : i + 1 < (plan q).length := hlenf ▸ h1
        have hchain := simulate_ok_chain hsim i h0 h1 hs1
        have htype := (simulate_ok_get hsim (i + 1) h1 hs1).2
        set a := flow.get ⟨i, h0⟩ with ha
        set b := flow.get ⟨i + 1, h1⟩ with hb
        cases hop : ((plan q).get ⟨i + 1, hs1⟩).op with
        | fromT table =>
            rw [hop] at htype
            refine ⟨?_, ?_, ?_⟩ <;> intro hty <;>
              rw [htype] at hty <;> simp [stageType] at hty
        | joinT rightTable onPred =>
            rw [hop] at htype
            refine ⟨?_, ?_, ?_⟩ <;> intro hty <;>
              rw [htype] at hty <;> simp [stageType] at hty
        | groupByT gcols =>
            rw [hop] at htype
            refine ⟨?_, ?_, ?_⟩ <;> intro hty <;>
              rw [htype] at hty <;> simp [stageType] at hty
        | distinctT =>
            rw [hop] at htype
            refine ⟨?_, ?_, ?_⟩ <;> intro hty <;>
              rw [htype] at hty <;> simp [stageType] at hty
        | whereT p =>
            rw [hop] at hchain
            have hm := (applyStage_whereT hchain).1
            refine ⟨fun _ => ⟨hm.1, fun j hj hb2 hexc => hm.excluded_fixed j hj hb2 hexc⟩,
              ?_, ?_⟩ <;> intro hty <;> rw [htype, hop] at hty <;> simp [stageType] at hty
        | havingT p =>
            rw [hop] at hchain
            have hm := (applyStage_havingT hchain).1
            refine ⟨fun _ => ⟨hm.1, fun j hj hb2 hexc => hm.excluded_fixed j hj hb2 hexc⟩,
              ?_, ?_⟩ <;> intro hty <;> rw [htype, hop] at hty <;> simp [stageType] at hty
        | limitT cap =>
            rw [hop] at hchain
            have hm := (applyStage_limitT hchain).1
            refine ⟨fun _ => ⟨hm.1, fun j hj hb2 hexc => hm.excluded_fixed j hj hb2 hexc⟩,
              ?_, ?_⟩ <;> intro hty <;> rw [htype, hop] at hty <;> simp [stageType] at hty
        | offsetT off =>
            rw [hop] at hchain
            have hm := (applyStage_offsetT hchain).1
            refine ⟨fun _ => ⟨hm.1, fun j hj hb2 hexc => hm.excluded_fixed j hj hb2 hexc⟩,
              ?_, ?_⟩ <;> intro hty <;> rw [htype, hop] at hty <;> simp [stageType] at hty
        | selectT sel =>
            rw [hop] at hchain
            have hmap := applyStage_selectT hchain
            refine ⟨?_, fun _ => ?_, ?_⟩
            · intro hty
              rw [htype, hop] at hty
              simp [stageType] at hty
            · refine ⟨by rw [hmap]; simp, ?_⟩
              intro j hj hb2
              simp [List.get_eq_getElem, hmap, List.getElem_map]
            · intro hty
              rw [htype, hop] at hty
              simp [stageType] at hty
        | orderByT keys =>
            rw [hop] at hchain
            have hperm := applyStage_orderByT hchain
            refine ⟨?_, ?_, fun _ => ?_⟩
            · intro hty
              rw [htype, hop] at hty
              simp [stageType] at hty
            · intro hty
              rw [htype, hop] at hty
              simp [stageType] at hty
            · intro r hr _
              exact hperm.mem_iff.mpr hr

/-- Closed instance of the sticky-exclusion claim on the sample query:
at the SELECT step (index 2) the Bob row (index 1) keeps the inclusion
state and reason it got from WHERE (index 1). -/
theorem C3_sticky_exclusion_witness :
    visualizeStructured sampleEngine sampleText sampleQuery = .ok sampleVis ∧
    (∀ st ∈ sampleVis.dataFlow, ∀ r ∈ st.rows,
      (r.excludedReason ≠ none ↔ r.included = false)) ∧
    ((sampleVis.dataFlow.get ⟨2, by decide⟩).rows.get ⟨1, by decide⟩).excludedReason
      = ((sampleVis.dataFlow.get ⟨1, by decide⟩).rows.get ⟨1, by decide⟩).excludedReason := by
  have hthm := C3_sticky_exclusion sampleEngine sampleText sampleQuery sampleVis rfl
  refine ⟨rfl, hthm.1, ?_⟩
  have hsel := (hthm.2 1 (by decide) (by decide)).2.1 (by decide)
  exact (hsel.2 1 (by decide) (by decide)).2

/-- Claim C7: two runs against the same schema state (engines answering
scans and predicate probes identically) and the same query produce
structurally identical visualizations. -/
theorem C7_deterministic (eng1 eng2 : Engine) (qtext : String) (q : StructuredQuery)
    (hscan : ∀ t, eng1.scanTable t = eng2.scanTable t)
    (hev : ∀ p r, eng1.evalPred p r = eng2.evalPred p r) :
    visualizeStructured eng1 qtext q = visualizeStructured eng2 qtext q ∧
    ∀ v1 v2, visualizeStructured eng1 qtext q = .ok v1 →
      visualizeStructured eng2 qtext q = .ok v2 →
      v1.executionSteps = v2.executionSteps ∧ v1.dataFlow = v2.dataFlow ∧
      v1.finalResult = v2.finalResult := by
  have heq : eng1 = eng2 := by
    obtain ⟨f1, g1⟩ := eng1
    obtain ⟨f2, g2⟩ := eng2
    simp only at hscan hev
    congr 1
    · funext t
      exact hscan t
    · funext p r
      exact hev p r
  subst heq
  refine ⟨rfl, ?_⟩
  intro v1 v2 h1 h2
  rw [h1] at h2
  injection h2 with h2
  subst h2
  exact ⟨rfl, rfl, rfl⟩

/-- Closed instance of the determinism claim: two runs of the sample
query against the sample engine agree. -/
theorem C7_deterministic_witness :
    visualizeStructured sampleEngine sampleText sampleQuery
      = visualizeStructured sampleEngine sampleText sampleQuery ∧
    sampleVis.dataFlow = sampleVis.dataFlow := by
  have hthm := C7_deterministic sampleEngine sampleEngine sampleText sampleQuery
    (fun _ => rfl) (fun _ _ => rfl)
  exact ⟨hthm.1, (hthm.2 sampleVis sampleVis rfl rfl).2.1⟩

/-- A structured query with two JOIN clauses, on which the planner emits
the JOIN stage twice. -/
def twoJoinQuery : StructuredQuery :=
  { distinct := false
    selectCols := none
    selectClause := "SELECT *"
    fromTable := usersName
    fromClause := "FROM users"
    joins :=
      [{ clauseText := "JOIN a ON x = y", rightTable := "a", onPred := "x = y" },
       { clauseText := "JOIN b ON u = w", rightTable := "b", onPred := "u = w" }]
    whereClause := none
    groupByCols := none
    havingClause := none
    orderByKeys := none
    limitCount := none
    offsetCount := none }

/-- Counterexample to claim C2 as stated: with two joins the planner
emits stage types FROM, JOIN, JOIN, SELECT, which is not a subsequence
of the ten-element `EXECUTION_ORDER` (JOIN occurs there only once). -/
theorem C2_counterexample :
    ¬ List.Sublist ((plan twoJoinQuery).map (fun s => stageType s.op)) EXECUTION_ORDER := by
  decide

theorem optStage_sublist {α : Type} (o : Option α) (f : α → StageOp × String)
    (x : ExecutionStepType) (hx : ∀ a, stageType (f a).1 = x) :
    List.Sublist ((optStage o f).map (fun p => stageType p.1)) [x] := by
  cases o with
  | none => simp [optStage]
  | some a => simp [optStage, hx a]

/-- The emitted stage types of a plan, piecewise. -/
theorem stageOps_types (q : StructuredQuery) :
    List.Sublist ((stageOps q).map (fun p => stageType p.1))
      ((((((((([ExecutionStepType.FROM]
        ++ List.replicate q.joins.length ExecutionStepType.JOIN)
        ++ [ExecutionStepType.WHERE]) ++ [ExecutionStepType.GROUP_BY])
        ++ [ExecutionStepType.HAVING]) ++ [ExecutionStepType.SELECT])
        ++ [ExecutionStepType.DISTINCT]) ++ [ExecutionStepType.ORDER_BY])
        ++ [ExecutionStepType.LIMIT]) ++ [ExecutionStepType.OFFSET]) := by
  rw [stageOps]
  simp only [List.map_append]
  refine List.Sublist.append (List.Sublist.append (List.Sublist.append
    (List.Sublist.append (List.Sublist.append (List.Sublist.append
      (List.Sublist.append (List.Sublist.append (List.Sublist.append
        ?_ ?_) ?_) ?_) ?_) ?_) ?_) ?_) ?_) ?_
  · exact List.Sublist.refl _
  · rw [List.map_map]
    have : (q.joins.map ((fun p => stageType p.1) ∘
        (fun j => (StageOp.joinT j.rightTable j.onPred, j.clauseText))))
        = List.replicate q.joins.length .JOIN := by
      apply List.eq_replicate_iff.mpr
      refine ⟨by simp, ?_⟩
      intro b hb
      obtain ⟨j, _, rfl⟩ := List.mem_map.mp hb
      rfl
    rw [this]
  · exact optStage_sublist _ _ _ (fun a => rfl)
  · exact optStage_sublist _ _ _ (fun a => rfl)
  · exact optStage_sublist _ _ _ (fun a => rfl)
  · exact List.Sublist.refl _
  · by_cases hd : q.distinct <;> simp [hd, stageType]
  · exact optStage_sublist _ _ _ (fun a => rfl)
  · exact optStage_sublist _ _ _ (fun a => rfl)
  · exact optStage_sublist _ _ _ (fun a => rfl)

/-- Claim C2, amended: `EXECUTION_ORDER` is the fixed ten-element
sequence, the emitted stage types always follow it with JOIN repeated
once per join of the query, and for queries with at most one join the
emitted sequence is literally a subsequence of `EXECUTION_ORDER`. -/
theorem C2_order_amended (q : StructuredQuery) :
    EXECUTION_ORDER
      = [.FROM, .JOIN, .WHERE, .GROUP_BY, .HAVING,
         .SELECT, .DISTINCT, .ORDER_BY, .LIMIT, .OFFSET] ∧
    List.Sublist ((plan q).map (fun s => stageType s.op))
      (ExecutionStepType.FROM ::
        (List.replicate q.joins.length ExecutionStepType.JOIN
          ++ [.WHERE, .GROUP_BY, .HAVING, .SELECT, .DISTINCT,
              .ORDER_BY, .LIMIT, .OFFSET])) ∧
    (q.joins.length ≤ 1 →
      List.Sublist ((plan q).map (fun s => stageType s.op)) EXECUTION_ORDER) := by
  have hmap : (plan q).map (fun s => stageType s.op)
      = (stageOps q).map (fun p => stageType p.1) := by
    rw [plan]
    exact number_map_type 1 (stageOps q)
  have hpieces := stageOps_types q
  refine ⟨rfl, ?_, ?_⟩
  · rw [hmap]
    have htarget : (((((((([ExecutionStepType.FROM]
          ++ List.replicate q.joins.length ExecutionStepType.JOIN)
          ++ [ExecutionStepType.WHERE]) ++ [ExecutionStepType.GROUP_BY])
          ++ [ExecutionStepType.HAVING]) ++ [ExecutionStepType.SELECT])
          ++ [ExecutionStepType.DISTINCT]) ++ [ExecutionStepType.ORDER_BY])
          ++ [ExecutionStepType.LIMIT]) ++ [ExecutionStepType.OFFSET]
        = ExecutionStepType.FROM ::
            (List.replicate q.joins.length ExecutionStepType.JOIN
              ++ [.WHERE, .GROUP_BY, .HAVING, .SELECT, .DISTINCT,
                  .ORDER_BY, .LIMIT, .OFFSET]) := by
      simp [List.append_assoc]
    exact htarget ▸ hpieces
  · intro hjle
    rw [hmap]
    refine hpieces.trans ?_
    have hrep : List.Sublist (List.replicate q.joins.length ExecutionStepType.JOIN)
        [ExecutionStepType.JOIN] := by
      match q.joins.length, hjle with
      | 0, _ => exact List.nil_sublist _
      | 1, _ => exact List.Sublist.refl _
    have hstep : List.Sublist
        ((((((((([ExecutionStepType.FROM]
          ++ List.replicate q.joins.length ExecutionStepType.JOIN)
          ++ [ExecutionStepType.WHERE]) ++ [ExecutionStepType.GROUP_BY])
          ++ [ExecutionStepType.HAVING]) ++ [ExecutionStepType.SELECT])
          ++ [ExecutionStepType.DISTINCT]) ++ [ExecutionStepType.ORDER_BY])
          ++ [ExecutionStepType.LIMIT]) ++ [ExecutionStepType.OFFSET])
        ((((((((([ExecutionStepType.FROM] ++ [ExecutionStepType.JOIN])
          ++ [ExecutionStepType.WHERE]) ++ [ExecutionStepType.GROUP_BY])
          ++ [ExecutionStepType.HAVING]) ++ [ExecutionStepType.SELECT])
          ++ [ExecutionStepType.DISTINCT]) ++ [ExecutionStepType.ORDER_BY])
          ++ [ExecutionStepType.LIMIT]) ++ [ExecutionStepType.OFFSET]) := by
      refine List.Sublist.append (List.Sublist.append (List.Sublist.append
        (List.Sublist.append (List.Sublist.append (List.Sublist.append
          (List.Sublist.append (List.Sublist.append (List.Sublist.append
            (List.Sublist.refl _) hrep) (List.Sublist.refl _)) (List.Sublist.refl _))
            (List.Sublist.refl _)) (List.Sublist.refl _)) (List.Sublist.refl _))
            (List.Sublist.refl _)) (List.Sublist.refl _)) (List.Sublist.refl _)
    have htarget : (((((((([ExecutionStepType.FROM] ++ [ExecutionStepType.JOIN])
          ++ [ExecutionStepType.WHERE]) ++ [ExecutionStepType.GROUP_BY])
          ++ [ExecutionStepType.HAVING]) ++ [ExecutionStepType.SELECT])
          ++ [ExecutionStepType.DISTINCT]) ++ [ExecutionStepType.ORDER_BY])
          ++ [ExecutionStepType.LIMIT]) ++ [ExecutionStepType.OFFSET]
        = EXECUTION_ORDER := rfl
    exact htarget ▸ hstep

/-- Closed instance of the amended ordering claim: the sample query has
no join, and its emitted stage types form a subsequence of
`EXECUTION_ORDER`. -/
theorem C2_order_amended_witness :
    List.Sublist ((plan sampleQuery).map (fun s => stageType s.op)) EXECUTION_ORDER :=
  (C2_order_amended sampleQuery).2.2 (by decide)

/-- Claim C6: `visualize` either returns a visualization or fails with
exactly one of `VALIDATION_ERROR` (missing session id or query),
`SQL_PARSE_ERROR` (unparseable or non-SELECT input, e.g. DROP TABLE), or
`SQL_EXECUTION_ERROR` (unresolvable table or predicate at runtime); no
partial visualization is returned on failure, and `DROP TABLE users`
fails with `SQL_PARSE_ERROR` against any engine. -/
theorem C6_visualize_errors :
    (∀ (eng : Engine) (sessionId query : String),
      (∃ v, visualize eng sessionId query = .ok v) ∨
      visualize eng sessionId query = .error .VALIDATION_ERROR ∨
      visualize eng sessionId query = .error .SQL_PARSE_ERROR ∨
      visualize eng sessionId query = .error .SQL_EXECUTION_ERROR) ∧
    (∀ eng : Engine, visualize eng "s1" "DROP TABLE users"
        = .error .SQL_PARSE_ERROR) ∧
    (∀ eng : Engine, visualize eng "" "SELECT * FROM users"
        = .error .VALIDATION_ERROR) := by
  refine ⟨?_, fun eng => by rfl, fun eng => by rfl⟩
  intro eng sid query
  rw [visualize]
  by_cases hval : (isBlank sid || isBlank query) = true
  · rw [if_pos hval]
    exact Or.inr (Or.inl rfl)
  · rw [if_neg hval]
    cases hp : parseQuery query with
    | none => exact Or.inr (Or.inr (Or.inl rfl))
    | some q =>
        cases hv : visualizeStructured eng query q with
        | ok v => exact Or.inl ⟨v, hv⟩
        | error e =>
            have he := visualizeStructured_error hv
            subst he
            exact Or.inr (Or.inr (Or.inr hv))

end SqlViz
